import Mathlib

/-!
Shallow embedding of the article ingestion and AI-summarization pipeline of
the parho-net repository, together with proofs settling the frozen claims.

Conventions used throughout:
* JavaScript strings are modelled as Lean `String` / `List Char`; all the
  inputs appearing in the claims are ASCII.
* JavaScript numbers are modelled as exact rationals (`ℚ`) where fractional
  values occur and as `Nat` where the source only ever holds non-negative
  integers; `Math.floor` on a non-negative value is the rational floor.
* Database tables are modelled as in-memory lists of rows; every `prisma`
  create/update/findUnique call becomes a pure state transformation.
* External HTTP calls (the Guardian content API, the OpenAI chat API) are
  modelled as oracle parameters returning `Except`, an `Except.error`
  standing for a thrown exception.
-/

namespace ParhoNet


/-! ### Text normalization (src/lib/guardianApi.ts, cleanBodyText and friends) -/

/-- Whitespace class used for the JavaScript regexes over the ASCII inputs in
play: space, tab, line feed, vertical tab, form feed, carriage return and
no-break space. -/
def jsWs (c : Char) : Bool :=
  c = ' ' || c = '\t' || c = '\n' || c = '\x0b' || c = '\x0c' || c = '\r' || c = ' '

/-- Global replacement of the regex `<[^>]*>` by the empty string, as a
one-pass state machine: outside a tag (`buf = none`) a `<` opens a candidate
match; inside a candidate (`buf = some chars-seen-reversed`) everything up to
the first `>` is consumed and dropped.  When the input ends inside an
unclosed candidate the regex never matched there (there is no later `>`
anywhere), so the buffered characters are emitted verbatim. -/
def stripTagsAux : List Char → Option (List Char) → List Char
  | [], none => []
  | [], some buf => buf.reverse
  | c :: rest, none =>
    if c = '<' then stripTagsAux rest (some ['<']) else c :: stripTagsAux rest none
  | c :: rest, some buf =>
    if c = '>' then stripTagsAux rest none else stripTagsAux rest (some (c :: buf))

/-- Remove every `<[^>]*>` match from the character list. -/
def stripTags (l : List Char) : List Char :=
  stripTagsAux l none

/-- Global, non-overlapping, left-to-right replacement of the literal pattern
`p0 :: ptl` by `rep`, the behaviour of `String.prototype.replace` with a
global literal regex.  The `skip` counter consumes the tail of a match that
was just replaced. -/
def replaceAllAux (p0 : Char) (ptl rep : List Char) : List Char → Nat → List Char
  | [], _ => []
  | _ :: rest, skip + 1 => replaceAllAux p0 ptl rep rest skip
  | c :: rest, 0 =>
    if c = p0 && ptl.isPrefixOf rest then
      rep ++ replaceAllAux p0 ptl rep rest ptl.length
    else
      c :: replaceAllAux p0 ptl rep rest 0

/-- Replace every occurrence of `p0 :: ptl` in `s` by `rep`. -/
def replaceAllL (p0 : Char) (ptl rep : List Char) (s : List Char) : List Char :=
  replaceAllAux p0 ptl rep s 0

/-- Replacement of every maximal run of characters satisfying `p` by the single
character `r`: the behaviour of `.replace(/X+/g, r)` for a character class
`X`. -/
def collapseRuns (p : Char → Bool) (r : Char) : List Char → List Char
  | [] => []
  | [c] => if p c then [r] else [c]
  | c :: d :: rest =>
    if p c && p d then collapseRuns p r (d :: rest)
    else (if p c then r else c) :: collapseRuns p r (d :: rest)

/-- Remove leading characters satisfying `p` (one half of `.trim()` and of the
anchored regex replacements). -/
def dropLeading (p : Char → Bool) : List Char → List Char
  | [] => []
  | c :: rest => if p c then dropLeading p rest else c :: rest

/-- Remove trailing characters satisfying `p`. -/
def dropTrailing (p : Char → Bool) (l : List Char) : List Char :=
  (dropLeading p l.reverse).reverse

/-- GuardianApiService.cleanBodyText: strip HTML tags, decode the five HTML
entities in use, collapse whitespace runs to single spaces, trim. -/
def cleanBodyText (htmlText : String) : String :=
  let l := stripTags htmlText.data
  let l := replaceAllL '&' "quot;".data "\"".data l
  let l := replaceAllL '&' "amp;".data "&".data l
  let l := replaceAllL '&' "lt;".data "<".data l
  let l := replaceAllL '&' "gt;".data ">".data l
  let l := replaceAllL '&' "nbsp;".data " ".data l
  let l := collapseRuns jsWs ' ' l
  ⟨dropTrailing jsWs (dropLeading jsWs l)⟩

/-- Count the maximal runs of non-whitespace characters: the length of
`text.split(/\s+/)` after discarding empty tokens. -/
def countWordsAux : List Char → Bool → Nat
  | [], _ => 0
  | c :: rest, inWord =>
    if jsWs c then countWordsAux rest false
    else (if inWord then 0 else 1) + countWordsAux rest true

/-- GuardianApiService.countWords: split on whitespace runs and count the
non-empty tokens. -/
def countWords (text : String) : Nat :=
  countWordsAux text.data false

/-- GuardianApiService.countCharacters: the raw length of the string. -/
def countCharacters (text : String) : Nat :=
  text.length

/-! ### Slug utilities (src/lib/slugUtils.ts) -/

/-- ASCII lower-casing, the effect of `toLowerCase` on the ASCII inputs in
play. -/
def asciiLower (c : Char) : Char :=
  if 'A' ≤ c && c ≤ 'Z' then Char.ofNat (c.toNat + 32) else c

/-- Characters kept by the regex replacement `[^a-z0-9\s-]` → empty string
(applied after lower-casing). -/
def slugKeep (c : Char) : Bool :=
  ('a' ≤ c && c ≤ 'z') || ('0' ≤ c && c ≤ '9') || jsWs c || c = '-'

/-- generateSlug: lowercase, strip characters outside `[a-z0-9\s-]`, trim,
replace whitespace runs by hyphens, collapse hyphen runs, strip leading and
trailing hyphens, truncate to 60 characters, strip a trailing hyphen run left
by truncation. -/
def generateSlug (title : String) : String :=
  let l := title.data.map asciiLower
  let l := l.filter slugKeep
  let l := dropTrailing jsWs (dropLeading jsWs l)
  let l := collapseRuns jsWs '-' l
  let l := collapseRuns (fun c => c = '-') '-' l
  let l := dropTrailing (fun c => c = '-') (dropLeading (fun c => c = '-') l)
  let l := l.take 60
  ⟨dropTrailing (fun c => c = '-') l⟩

/-- The slug column of the openaiSummary table, as seen by
`prisma.openaiSummary.findUnique({ where: { slug }, select: { guardianId } })`:
an association list from slug to guardianId. -/
abbrev SlugStore := List (String × String)

/-- Result of the findUnique lookup by slug. -/
def lookupSlug (store : SlugStore) (slug : String) : Option String :=
  (store.find? (fun row => row.1 = slug)).map (·.2)

/-- The loop exit condition of ensureUniqueSlug: no row holds the slug, or the
row holding it is the article `excludeId` itself. -/
def slugFree (store : SlugStore) (excludeId : Option String) (slug : String) : Bool :=
  match lookupSlug store slug with
  | none => true
  | some gid => excludeId = some gid

/-- The k-th candidate tried by the loop: the base slug itself, then
`base-1`, `base-2`, and so on. -/
def slugCandidate (base : String) (k : Nat) : String :=
  if k = 0 then base else base ++ "-" ++ toString k

/-- The `while (true)` loop of ensureUniqueSlug, supplied with enough fuel:
by the pigeonhole argument proved below, `store.length + 1` candidate slugs
cannot all be taken, so the fuel is never exhausted and the out-of-fuel
branch is dead code. -/
def ensureGo (store : SlugStore) (excludeId : Option String) (base : String) :
    Nat → Nat → String
  | 0, k => slugCandidate base k
  | fuel + 1, k =>
    if slugFree store excludeId (slugCandidate base k) then slugCandidate base k
    else ensureGo store excludeId base fuel (k + 1)

/-- ensureUniqueSlug: return the first candidate slug (base, base-1, base-2,
...) that is unused or used only by `excludeId`. -/
def ensureUniqueSlug (baseSlug : String) (store : SlugStore) (excludeId : Option String) :
    String :=
  ensureGo store excludeId baseSlug (store.length + 1) 0

/-- createUniqueSlug: generate the base slug from the title and make it
unique. -/
def createUniqueSlug (title : String) (store : SlugStore) (excludeId : Option String) :
    String :=
  ensureUniqueSlug (generateSlug title) store excludeId

/-! ### Summarization client (OpenAIService in src/lib, validateSummary and
calculateCost) -/

/-- One FAQ pair of a generated summary. -/
structure Faq where
  question : String
  answer : String
deriving DecidableEq

/-- The structured summarization output (interface ArticleSummary). -/
structure ArticleSummary where
  heading : String
  category : String
  summary : String
  tldr : List String
  faqs : List Faq
deriving DecidableEq

/-- Split a character list at every single space character, the behaviour of
`String.prototype.split(' ')` (empty segments included). -/
def splitSp : List Char → List (List Char)
  | [] => [[]]
  | c :: rest =>
    if c = ' ' then [] :: splitSp rest
    else
      match splitSp rest with
      | [] => [[c]]
      | s :: ss => (c :: s) :: ss

/-- The number of tokens produced by `category.split(' ')`. -/
def spaceSplitCount (s : String) : Nat :=
  (splitSp s.data).length

/-- Index of the first FAQ with an empty question or answer, if any: the first
index at which the `forEach` validation loop throws. -/
def firstIncompleteFaq : List Faq → Nat → Option Nat
  | [], _ => none
  | f :: rest, i =>
    if f.question = "" || f.answer = "" then some i
    else firstIncompleteFaq rest (i + 1)

/-- OpenAIService.validateSummary; `Except.error msg` models a thrown
`Error(msg)`.  A falsy (empty) string field fails the same branch as in the
source. -/
def validateSummary (s : ArticleSummary) : Except String Unit :=
  if s.heading = "" || decide (s.heading.length < 5) then
    Except.error "Heading too short - minimum 5 characters required"
  else if s.category = "" || decide (spaceSplitCount s.category > 3) then
    Except.error "Category must be maximum 3 words"
  else if s.summary = "" || decide (s.summary.length < 200) then
    Except.error "Summary too short - minimum 200 characters required"
  else if s.tldr.length ≠ 3 then
    Except.error "TLDR must have exactly 3 points"
  else if s.faqs.length ≠ 5 then
    Except.error "Must have exactly 5 FAQs"
  else
    match firstIncompleteFaq s.faqs 0 with
    | some i => Except.error ("FAQ " ++ toString (i + 1) ++ " missing question or answer")
    | none => Except.ok ()

/-! #### IEEE-754 binary64 value semantics

JavaScript numbers are binary64 floating-point values.  A finite binary64
value is an exact rational, and every arithmetic operation rounds its exact
rational result to 53 significant bits, to nearest, ties to even.  `fl`
below is that rounding on ℚ, with unbounded exponent range (no overflow or
subnormals: every quantity in `calculateCost` is far from both ends of the
binary64 range for any realistic token count, and the modelled exponent is
exact wherever the double's one is). -/

/-- Two to an integer power, as a rational, using only `Nat` powers so the
kernel can evaluate it. -/
def pow2z (z : ℤ) : ℚ :=
  if 0 ≤ z then ((2 ^ z.toNat : ℕ) : ℚ) else ((2 ^ (-z).toNat : ℕ) : ℚ)⁻¹

/-- Round a rational to the nearest integer, ties to even.  The fractional
part of `x` is `(x.num - ⌊x⌋ * x.den) / x.den`, so its comparisons with 1/2
are integer comparisons, which the kernel evaluates. -/
def rhe (x : ℚ) : ℤ :=
  let n := ⌊x⌋
  let r := x.num - n * (x.den : ℤ)
  if 2 * r < (x.den : ℤ) then n
  else if (x.den : ℤ) < 2 * r then n + 1
  else if n % 2 = 0 then n else n + 1

/-- Decide `2 ^ z ≤ a / b` for natural `a`, positive natural `b`, by cross
multiplication. -/
def pow2Le (z : ℤ) (a b : ℕ) : Bool :=
  if 0 ≤ z then b * 2 ^ z.toNat ≤ a else b ≤ a * 2 ^ (-z).toNat

/-- Fuel-driven binary logarithm (the fuel argument only bounds the
recursion; `n` itself is always enough fuel). -/
def nlog2Aux : ℕ → ℕ → ℕ
  | 0, _ => 0
  | fuel + 1, n => if n ≤ 1 then 0 else nlog2Aux fuel (n / 2) + 1

/-- Floor of the binary logarithm of a positive natural. -/
def nlog2 (n : ℕ) : ℕ := nlog2Aux n n

/-- The binade exponent of a positive rational: the unique `z` with
`2 ^ z ≤ q < 2 ^ (z + 1)`. -/
def qilog2 (q : ℚ) : ℤ :=
  let a := q.num.toNat
  let b := q.den
  let z0 : ℤ := (nlog2 a : ℤ) - (nlog2 b : ℤ)
  if pow2Le z0 a b then z0 else z0 - 1

/-- Binary64 rounding of a positive rational: scale into the binade of
53-bit integers, round to nearest (ties to even), scale back. -/
def flPos (q : ℚ) : ℚ :=
  (rhe (q / pow2z (qilog2 q - 52)) : ℚ) * pow2z (qilog2 q - 52)

/-- Binary64 rounding of a rational (round to nearest, ties to even). -/
def fl (q : ℚ) : ℚ :=
  if q.num < 0 then -flPos (-q) else if q.num = 0 then 0 else flPos q

/-- OpenAIService.calculateCost with binary64 semantics: the literals 0.005,
0.015, 0.7 and 0.3 denote the binary64 values nearest them, `tokens` arrives
as a binary64 value, each multiplication, division and addition rounds once,
and `Math.floor` of a non-negative double is the exact integer floor (itself
exactly representable). -/
def calculateCost (tokens : Nat) : ℚ :=
  let inputCostPer1K : ℚ := fl (5 / 1000)
  let outputCostPer1K : ℚ := fl (15 / 1000)
  let inputTokens : ℤ := ⌊fl (fl (tokens : ℚ) * fl (7 / 10))⌋
  let outputTokens : ℤ := ⌊fl (fl (tokens : ℚ) * fl (3 / 10))⌋
  let inputCost : ℚ := fl (fl ((inputTokens : ℚ) / 1000) * inputCostPer1K)
  let outputCost : ℚ := fl (fl ((outputTokens : ℚ) / 1000) * outputCostPer1K)
  fl (inputCost + outputCost)

/-- The cost computation exactly as the claim words it: a fixed 70/30
input/output split of the total token count, each side floored and charged at
its independent per-1000-token rate, then summed. -/
def claimedCost (tokens : Nat) : ℚ :=
  let inputTokens : Nat := ⌊(0.7 : ℚ) * tokens⌋₊
  let outputTokens : Nat := ⌊(0.3 : ℚ) * tokens⌋₊
  (inputTokens : ℚ) / 1000 * (0.005 : ℚ) + (outputTokens : ℚ) / 1000 * (0.015 : ℚ)

/-! ### Injectivity of the decimal counter suffix, and the pigeonhole argument
behind the slug loop -/

/-- Decimal digit characters of `n`, most significant first. -/
def decChars (n : Nat) : List Char :=
  if n < 10 then [Nat.digitChar n]
  else decChars (n / 10) ++ [Nat.digitChar (n % 10)]
termination_by n
decreasing_by
  exact Nat.div_lt_self (by omega) (by omega)

/-! ### Source fetcher (GuardianApiService.fetchArticles)

The two HTTP queries (per-section search and the opinion tag fallback) are
oracle parameters; `Except.error` models a thrown request error and `.ok l`
a 200 response with status "ok" and result list `l` (a response whose status
field is not "ok" is the oracle returning `.ok []`, matching the `return []`
in the source).  The `sort(() => 0.5 - Math.random())` shuffle is an opaque
permutation parameter. -/

/-- One entry of the fixed section table of GuardianApiService. -/
structure SectionDef where
  name : String
  guardianSection : String
deriving DecidableEq

/-- The four topic sections, in query order. -/
def sections : List SectionDef :=
  [⟨"opinion", "commentisfree"⟩, ⟨"environment", "environment"⟩,
   ⟨"technology", "technology"⟩, ⟨"science", "science"⟩]

/-- A candidate article as returned by the content API. -/
structure FetchedArticle where
  id : String
  type : String
  sectionName : String
  webPublicationDate : String
  fieldsBodyText : Option String
  fieldsThumbnail : Option String
deriving DecidableEq

/-- Primary per-section search query. -/
abbrev SectionOracle := SectionDef → Nat → Except String (List FetchedArticle)

/-- The alternative `tag=tone/comment` query tried when the opinion section
fails. -/
abbrev AltOracle := Nat → Except String (List FetchedArticle)

/-- Retain only results with a body text longer than 500 characters. -/
def filterSubstantial (l : List FetchedArticle) : List FetchedArticle :=
  l.filter (fun a =>
    match a.fieldsBodyText with
    | some b => decide (b.length > 500)
    | none => false)

/-- Overwrite sectionName with the standardized section name. -/
def standardize (name : String) (l : List FetchedArticle) : List FetchedArticle :=
  l.map (fun a => { a with sectionName := name })

/-- GuardianApiService.fetchArticlesBySection: query the section, filter and
standardize; on a thrown error, retry the opinion section through the
alternative query before rethrowing the original error. -/
def fetchArticlesBySection (primary : SectionOracle) (alt : AltOracle)
    (s : SectionDef) (count : Nat) : Except String (List FetchedArticle) :=
  match primary s count with
  | .ok results => .ok (standardize s.name (filterSubstantial results))
  | .error e =>
    if s.name = "opinion" then
      match alt count with
      | .ok results => .ok (standardize "opinion" (filterSubstantial results))
      | .error _ => .error e
    else
      .error e

/-- GuardianApiService.fetchArticles: split the target count evenly (ceiling)
across the sections, collect per-section results while swallowing per-section
errors, then shuffle and truncate to the requested count. -/
def fetchArticles (shuffle : List FetchedArticle → List FetchedArticle)
    (primary : SectionOracle) (alt : AltOracle) (count : Nat) : List FetchedArticle :=
  let articlesPerSection := (count + sections.length - 1) / sections.length
  let allArticles := sections.foldl (fun acc s =>
    match fetchArticlesBySection primary alt s articlesPerSection with
    | .ok l => acc ++ l
    | .error _ => acc) []
  (shuffle allArticles).take count

/-! ### Ingestion orchestrator (pages/api/cron/fetch-articles.ts and
src/pages/api/admin/manual-fetch.ts)

Both handlers run the same per-article loop: dedupe check on the
processedArticleId table, marker creation, guardianArticle persistence,
openaiSummary shell in PROCESSING, summarization, then a COMPLETED or FAILED
update.  They differ in one point: the cron handler persists the slug
produced for the generated heading on the COMPLETED update, the manual-fetch
handler does not mention the slug column at all.  The flag `withSlug`
selects between the two (true = cron, false = manual-fetch).  Persistence
operations are modelled as total state updates; the summarization call
(OpenAI request plus response validation) is the failure point, modelled as
an oracle. -/

/-- Processing status of an openaiSummary row. -/
inductive ProcStatus
  | PENDING
  | PROCESSING
  | COMPLETED
  | FAILED
deriving DecidableEq

/-- A guardianArticle row. -/
structure StoredArticle where
  guardianId : String
  type : String
  sectionName : String
  webPublicationDate : String
  bodyText : String
  thumbnail : Option String
  wordCount : Nat
  characterCount : Nat
deriving DecidableEq

/-- An openaiSummary row. -/
structure SummaryRow where
  guardianId : String
  heading : String
  category : String
  summary : String
  tldr : List String
  faqs : List Faq
  slug : Option String
  wordCountOriginal : Option Nat
  wordCountSummary : Option Nat
  characterCountOriginal : Option Nat
  characterCountSummary : Option Nat
  tokensUsed : Option Nat
  processingCostUsd : Option ℚ
  processingStatus : ProcStatus
  processingError : Option String
deriving DecidableEq

/-- The persistent store: processedArticleId, guardianArticle and
openaiSummary tables. -/
structure Db where
  processedIds : List String
  articles : List StoredArticle
  summaries : List SummaryRow
deriving DecidableEq

/-- The empty store. -/
def emptyDb : Db := ⟨[], [], []⟩

/-- A successful summarizeArticle result: the validated ArticleSummary
together with token usage and estimated cost. -/
structure SummarizeOk where
  heading : String
  category : String
  summary : String
  tldr : List String
  faqs : List Faq
  tokensUsed : Nat
  estimatedCost : ℚ
deriving DecidableEq

/-- The summarization call as seen by the orchestrator: clean body text and
section name in, validated summary or thrown error message out. -/
abbrev SummarizeOracle := String → String → Except String SummarizeOk

/-- The slug column as a lookup table, read by ensureUniqueSlug. -/
def slugStoreOf (db : Db) : SlugStore :=
  db.summaries.filterMap (fun r => r.slug.map (fun s => (s, r.guardianId)))

/-- A fresh openaiSummary shell with empty content fields. -/
def blankRow (gid : String) (status : ProcStatus) (err : Option String) : SummaryRow :=
  ⟨gid, "", "", "", [], [], none, none, none, none, none, none, none, status, err⟩

/-- Create-or-update of the openaiSummary shell in PROCESSING status (the
`update(...).catch(() => create(...))` of the cron handler and the plain
create of the manual handler behave identically here because a row exists
exactly when the dedupe marker exists). -/
def upsertProcessing (db : Db) (gid : String) : Db :=
  if db.summaries.any (fun r => r.guardianId = gid) then
    { db with summaries := db.summaries.map (fun r =>
        if r.guardianId = gid then { r with processingStatus := .PROCESSING } else r) }
  else
    { db with summaries := db.summaries ++ [blankRow gid .PROCESSING none] }

/-- The COMPLETED update of the openaiSummary row.  When `withSlug` is true
(cron handler) the slug column is written; when false (manual-fetch handler)
the update does not mention the slug column, so the row keeps its previous
value. -/
def completeSummary (withSlug : Bool) (db : Db) (gid : String) (s : SummarizeOk)
    (origWc origCc : Nat) (slugVal : Option String) : Db :=
  { db with summaries := db.summaries.map (fun r =>
      if r.guardianId = gid then
        { r with
          heading := s.heading
          category := s.category
          summary := s.summary
          tldr := s.tldr
          faqs := s.faqs
          slug := if withSlug then slugVal else r.slug
          wordCountOriginal := some origWc
          wordCountSummary := some (countWords s.summary)
          characterCountOriginal := some origCc
          characterCountSummary := some (countCharacters s.summary)
          tokensUsed := some s.tokensUsed
          processingCostUsd := some s.estimatedCost
          processingStatus := .COMPLETED
          processingError := none }
      else r) }

/-- The FAILED update of the openaiSummary row: status and error message only,
content fields and slug untouched. -/
def failSummary (db : Db) (gid : String) (msg : String) : Db :=
  { db with summaries := db.summaries.map (fun r =>
      if r.guardianId = gid then
        { r with processingStatus := .FAILED, processingError := some msg }
      else r) }

/-- Per-article outcome of the loop body: the dedupe skip, a COMPLETED
summary, or a FAILED summary with the error message. -/
inductive Outcome
  | skipped
  | processed
  | failed (msg : String)
deriving DecidableEq

/-- One iteration of the per-article loop.  The cron handler obtains the slug
from the updated summarizeArticle; its computation is
Modelled from the spec: the slug-generation step inside
`lib/openaiService.ts`'s updated summarizeArticle (not present under src/)
"assigns slug via Slug Assigner" from the generated heading, excluding the
article's own id. -/
def processOne (withSlug : Bool) (oracle : SummarizeOracle) (db : Db)
    (a : FetchedArticle) : Db × Outcome :=
  if a.id ∈ db.processedIds then
    (db, .skipped)
  else
    let db1 : Db := { db with processedIds := db.processedIds ++ [a.id] }
    let clean := cleanBodyText (a.fieldsBodyText.getD "")
    let origWc := countWords clean
    let origCc := countCharacters clean
    let stored : StoredArticle :=
      ⟨a.id, a.type, a.sectionName, a.webPublicationDate, clean, a.fieldsThumbnail,
        origWc, origCc⟩
    let db2 : Db := { db1 with articles := db1.articles ++ [stored] }
    let db3 := upsertProcessing db2 a.id
    match oracle clean a.sectionName with
    | .ok s =>
      let slugVal : Option String :=
        if withSlug then some (createUniqueSlug s.heading (slugStoreOf db3) (some a.id))
        else none
      (completeSummary withSlug db3 a.id s origWc origCc slugVal, .processed)
    | .error e => (failSummary db3 a.id e, .failed e)

/-- The per-article loop over the fetched batch, returning the final store and
the outcome of every iteration in order. -/
def runList (withSlug : Bool) (oracle : SummarizeOracle) (db : Db) :
    List FetchedArticle → Db × List (String × Outcome)
  | [] => (db, [])
  | a :: rest =>
    let step := processOne withSlug oracle db a
    let restRes := runList withSlug oracle step.1 rest
    (restRes.1, (a.id, step.2) :: restRes.2)

/-- The aggregate counters reported by the handler response and written to the
cronJobLog row. -/
structure RunResult where
  articlesFound : Nat
  articlesProcessed : Nat
  articlesFailed : Nat
  errors : List String
deriving DecidableEq

/-- True exactly for a failed outcome. -/
def isFailedOutcome : Outcome → Bool
  | .failed _ => true
  | _ => false

/-- The accumulated error strings, in the `Article id: message` format pushed
by both handlers. -/
def errorsOf (outs : List (String × Outcome)) : List String :=
  outs.filterMap (fun p =>
    match p.2 with
    | .failed m => some ("Article " ++ p.1 ++ ": " ++ m)
    | _ => none)

/-- One ingestion run over an already-fetched batch: articlesFound is the
pre-dedupe batch length, articlesProcessed counts the iterations that reached
the COMPLETED update, articlesFailed those that reached the FAILED update;
skipped duplicates increment neither (exactly the counter updates performed
inside the loop of both handlers). -/
def runBatch (withSlug : Bool) (oracle : SummarizeOracle) (db : Db)
    (batch : List FetchedArticle) : Db × RunResult :=
  let r := runList withSlug oracle db batch
  (r.1,
    ⟨batch.length,
     (r.2.filter (fun p => p.2 = Outcome.processed)).length,
     (r.2.filter (fun p => isFailedOutcome p.2)).length,
     errorsOf r.2⟩)

/-! ### Invariants of the per-article state machine -/

/-- Number of guardianArticle rows holding the external id `x`. -/
def countA (x : String) (db : Db) : Nat :=
  (db.articles.filter (fun r => r.guardianId = x)).length

/-- Number of openaiSummary rows holding the external id `x`. -/
def countS (x : String) (db : Db) : Nat :=
  (db.summaries.filter (fun r => r.guardianId = x)).length

/-- The id `x` has never been seen: no marker, no article row, no summary
row. -/
def FreshId (x : String) (db : Db) : Prop :=
  x ∉ db.processedIds ∧ countA x db = 0 ∧ countS x db = 0

/-- The id `x` has been claimed and carries exactly one SourceArticle row and
exactly one SummaryRecord row. -/
def ClaimedOnce (x : String) (db : Db) : Prop :=
  x ∈ db.processedIds ∧ countA x db = 1 ∧ countS x db = 1

/-! ### Slug and well-formedness invariants of the summary table -/

/-- Every summary row's external id carries a dedupe marker. -/
def WFdb (db : Db) : Prop :=
  ∀ r ∈ db.summaries, r.guardianId ∈ db.processedIds

/-- The claimed invariant: a row's slug is non-null exactly when the row is
COMPLETED. -/
def SlugIff (db : Db) : Prop :=
  ∀ r ∈ db.summaries, (r.slug ≠ none ↔ r.processingStatus = ProcStatus.COMPLETED)

/-- The weaker direction that survives the manual-fetch path: a non-null slug
implies COMPLETED. -/
def SlugOnlyIf (db : Db) : Prop :=
  ∀ r ∈ db.summaries, r.slug ≠ none → r.processingStatus = ProcStatus.COMPLETED

/-! ### Concrete data used by the claim instances and witnesses -/

/-- A 200-character text satisfying the minimum summary length. -/
def longText : String := ⟨List.replicate 200 'x'⟩

/-- A 501-character body passing the substantial-content filter. -/
def longBody : String := ⟨List.replicate 501 'b'⟩

/-- A demo candidate article. -/
def demoArticle : FetchedArticle :=
  ⟨"g1", "article", "technology", "2024-01-01", some "body text", none⟩

/-- A summarization oracle that always succeeds with a fixed summary. -/
def demoOracle : SummarizeOracle :=
  fun _ _ => Except.ok ⟨"Valid Heading", "Tech", "Summary text", [], [], 0, 0⟩

/-- Candidate article for the aggregation scenario. -/
def c3Article (i body : String) : FetchedArticle :=
  ⟨i, "article", "technology", "2024-01-01", some body, none⟩

/-- A batch of 10 candidates: a1 and a2 are already processed, a3 fails
summarization, the remaining 7 succeed. -/
def c3Batch : List FetchedArticle :=
  [c3Article "a1" "dup one", c3Article "a2" "dup two", c3Article "a3" "FAIL",
   c3Article "a4" "body four", c3Article "a5" "body five", c3Article "a6" "body six",
   c3Article "a7" "body seven", c3Article "a8" "body eight", c3Article "a9" "body nine",
   c3Article "a10" "body ten"]

/-- Store with pre-existing markers for a1 and a2. -/
def c3Db : Db := ⟨["a1", "a2"], [], []⟩

/-- Oracle failing exactly on the body "FAIL". -/
def c3Oracle : SummarizeOracle := fun clean _ =>
  if clean = "FAIL" then Except.error "boom"
  else Except.ok ⟨clean, "Tech", "Summary text", [], [], 0, 0⟩

/-- A summarization result whose tldr has length 2, all other fields valid. -/
def badTldrSummary : ArticleSummary :=
  ⟨"Valid Heading", "Tech News", longText, ["a", "b"], []⟩

/-- A fully valid summarization result: 3 non-empty bullet points and 5
complete FAQ pairs. -/
def goodSummary : ArticleSummary :=
  ⟨"Valid Heading", "Tech News", longText, ["a", "b", "c"],
   [⟨"q1", "a1"⟩, ⟨"q2", "a2"⟩, ⟨"q3", "a3"⟩, ⟨"q4", "a4"⟩, ⟨"q5", "a5"⟩]⟩

/-- The article collected from the opinion section in the fetch-resilience
witness. -/
def c8opArticle : FetchedArticle :=
  ⟨"op1", "article", "comment", "2024-01-01", some longBody, none⟩

/-- A primary section oracle whose environment query throws. -/
def envFailPrimary : SectionOracle := fun s _ =>
  if s.name = "environment" then Except.error "boom"
  else if s.name = "opinion" then Except.ok [c8opArticle]
  else Except.ok []

/-- An alternative-query oracle returning nothing. -/
def emptyAlt : AltOracle := fun _ => Except.ok []

/-- The articles collected from the three surviving sections once environment
has failed. -/
def c8Combined (l1 l3 l4 : List FetchedArticle) : List FetchedArticle :=
  standardize "opinion" (filterSubstantial l1) ++
  standardize "technology" (filterSubstantial l3) ++
  standardize "science" (filterSubstantial l4)

/-! ### The claims -/

/-! ### Proofs -/

theorem decChars_lt {n : Nat} (h : n < 10) : decChars n = [Nat.digitChar n] := by
  rw [decChars]; simp [h]

theorem decChars_ge {n : Nat} (h : ¬ n < 10) :
    decChars n = decChars (n / 10) ++ [Nat.digitChar (n % 10)] := by
  rw [decChars]; simp [h]

theorem digitChar_sub (n : Nat) (h : n < 10) : (Nat.digitChar n).toNat - 48 = n := by
  revert h; revert n; decide

theorem toDigitsCore_eq_decChars :
    ∀ (f n : Nat) (l : List Char), n < f →
      Nat.toDigitsCore 10 f n l = decChars n ++ l := by
  intro f
  induction f with
  | zero => intro n l h; omega
  | succ f ih =>
    intro n l h
    by_cases h10 : n / 10 = 0
    · have hn : n < 10 := by omega
      simp only [Nat.toDigitsCore, h10, if_true, decChars_lt hn, Nat.mod_eq_of_lt hn,
        List.singleton_append]
    · have hge : ¬ n < 10 := by
        intro hlt
        exact h10 (Nat.div_eq_of_lt hlt)
      have hlt : n / 10 < f := by
        have : n / 10 < n := Nat.div_lt_self (by omega) (by omega)
        omega
      simp only [Nat.toDigitsCore, h10, if_false]
      rw [ih (n / 10) (Nat.digitChar (n % 10) :: l) hlt, decChars_ge hge,
        List.append_assoc, List.singleton_append]

theorem foldl_decChars (n : Nat) :
    ∀ a : Nat, (decChars n).foldl (fun acc c => 10 * acc + (c.toNat - 48)) a =
      a * 10 ^ (decChars n).length + n := by
  induction n using Nat.strong_induction_on with
  | _ n ih =>
    intro a
    by_cases h : n < 10
    · rw [decChars_lt h]
      simp [List.foldl, digitChar_sub n h]
      ring
    · rw [decChars_ge h]
      have hdiv : n / 10 < n := Nat.div_lt_self (by omega) (by omega)
      rw [List.foldl_append, ih (n / 10) hdiv a]
      show 10 * (a * 10 ^ (decChars (n / 10)).length + n / 10) +
          ((Nat.digitChar (n % 10)).toNat - 48) =
        a * 10 ^ (decChars (n / 10) ++ [Nat.digitChar (n % 10)]).length + n
      rw [digitChar_sub (n % 10) (Nat.mod_lt n (by omega)), List.length_append,
        List.length_singleton, pow_succ]
      have hmod : 10 * (n / 10) + n % 10 = n := Nat.div_add_mod n 10
      have hring : 10 * (a * 10 ^ (decChars (n / 10)).length + n / 10) + n % 10 =
          a * (10 ^ (decChars (n / 10)).length * 10) + (10 * (n / 10) + n % 10) := by
        ring
      rw [hring, hmod]

theorem decChars_injective : Function.Injective decChars := by
  intro m n h
  have hm := foldl_decChars m 0
  have hn := foldl_decChars n 0
  rw [h] at hm
  rw [hm] at hn
  omega

theorem repr_eq_decChars (n : Nat) : Nat.repr n = (decChars n).asString := by
  show (Nat.toDigits 10 n).asString = (decChars n).asString
  rw [show Nat.toDigits 10 n = Nat.toDigitsCore 10 (n + 1) n [] from rfl,
    toDigitsCore_eq_decChars (n + 1) n [] (Nat.lt_succ_self n), List.append_nil]

theorem repr_injective : Function.Injective Nat.repr := by
  intro m n h
  rw [repr_eq_decChars, repr_eq_decChars] at h
  exact decChars_injective (by
    have := congrArg String.data h
    simpa [List.asString] using this)

theorem slugCandidate_injective (base : String) :
    Function.Injective (slugCandidate base) := by
  intro i j h
  unfold slugCandidate at h
  rcases i with _ | i <;> rcases j with _ | j
  · rfl
  · simp only [if_pos, if_neg (Nat.succ_ne_zero j)] at h
    have hlen := congrArg String.length h
    rw [String.length_append, String.length_append] at hlen
    have h1 : ("-" : String).length = 1 := rfl
    omega
  · simp only [if_pos, if_neg (Nat.succ_ne_zero i)] at h
    have hlen := congrArg String.length h
    rw [String.length_append, String.length_append] at hlen
    have h1 : ("-" : String).length = 1 := rfl
    omega
  · simp only [if_neg (Nat.succ_ne_zero i), if_neg (Nat.succ_ne_zero j)] at h
    have hdata := congrArg String.data h
    simp only [String.data_append] at hdata
    have := List.append_cancel_left hdata
    have hrepr : Nat.repr (i + 1) = Nat.repr (j + 1) := String.ext this
    exact congrArg (· + 1) (Nat.succ_injective (repr_injective hrepr))

theorem slugFree_false_mem {store : SlugStore} {excludeId : Option String} {s : String}
    (h : slugFree store excludeId s = false) : s ∈ store.map Prod.fst := by
  unfold slugFree lookupSlug at h
  rcases hfind : store.find? (fun row => row.1 = s) with _ | row
  · rw [hfind] at h; simp at h
  · have hp := List.find?_some hfind
    have hmem := List.mem_of_find?_eq_some hfind
    have : row.1 = s := by simpa using hp
    exact this ▸ List.mem_map_of_mem Prod.fst hmem

theorem exists_free_candidate (store : SlugStore) (excludeId : Option String)
    (base : String) :
    ∃ j, j ≤ store.length ∧ slugFree store excludeId (slugCandidate base j) = true := by
  by_contra hcon
  push_neg at hcon
  have htaken : ∀ j, j ≤ store.length → slugFree store excludeId (slugCandidate base j) = false := by
    intro j hj
    have := hcon j hj
    exact Bool.not_eq_true _ ▸ (by simpa using this)
  classical
  have hsub : (Finset.range (store.length + 1)).image (slugCandidate base) ⊆
      (store.map Prod.fst).toFinset := by
    intro s hs
    rcases Finset.mem_image.mp hs with ⟨j, hj, rfl⟩
    have hjle : j ≤ store.length := Nat.lt_succ_iff.mp (Finset.mem_range.mp hj)
    exact List.mem_toFinset.mpr (slugFree_false_mem (htaken j hjle))
  have hcard := Finset.card_le_card hsub
  rw [Finset.card_image_of_injective _ (slugCandidate_injective base),
    Finset.card_range] at hcard
  have := (store.map Prod.fst).toFinset_card_le
  simp only [List.length_map] at this
  omega

theorem ensureGo_spec (store : SlugStore) (excludeId : Option String) (base : String) :
    ∀ (fuel k : Nat),
      (∃ j, j < fuel ∧ slugFree store excludeId (slugCandidate base (k + j)) = true) →
      ∃ j, slugFree store excludeId (slugCandidate base (k + j)) = true ∧
        (∀ i, i < j → slugFree store excludeId (slugCandidate base (k + i)) = false) ∧
        ensureGo store excludeId base fuel k = slugCandidate base (k + j) := by
  intro fuel
  induction fuel with
  | zero => intro k h; omega
  | succ fuel ih =>
    intro k h
    by_cases hk : slugFree store excludeId (slugCandidate base k) = true
    · refine ⟨0, by simpa using hk, by omega, ?_⟩
      simp [ensureGo, hk]
    · have hkf : slugFree store excludeId (slugCandidate base k) = false :=
        Bool.not_eq_true _ ▸ (by simpa using hk)
      obtain ⟨j, hjlt, hjfree⟩ := h
      rcases j with _ | j
      · rw [Nat.add_zero] at hjfree
        rw [hjfree] at hkf
        cases hkf
      · have hex : ∃ j2, j2 < fuel ∧
            slugFree store excludeId (slugCandidate base ((k + 1) + j2)) = true := by
          refine ⟨j, by omega, ?_⟩
          have : (k + 1) + j = k + (j + 1) := by omega
          rw [this]
          exact hjfree
        obtain ⟨j2, hfree2, hpre2, hgo2⟩ := ih (k + 1) hex
        refine ⟨j2 + 1, ?_, ?_, ?_⟩
        · have : k + (j2 + 1) = (k + 1) + j2 := by omega
          rw [this]; exact hfree2
        · intro i hi
          rcases i with _ | i
          · simpa using hkf
          · have : k + (i + 1) = (k + 1) + i := by omega
            rw [this]
            exact hpre2 i (by omega)
        · have : k + (j2 + 1) = (k + 1) + j2 := by omega
          rw [this, ← hgo2]
          simp [ensureGo, hkf]

theorem length_filter_map_eq {α : Type} (l : List α) (f : α → α) (p : α → Bool)
    (hp : ∀ x, p (f x) = p x) :
    ((l.map f).filter p).length = (l.filter p).length := by
  induction l with
  | nil => rfl
  | cons a t ih =>
    simp only [List.map_cons, List.filter_cons, hp a]
    by_cases h : p a
    · simp [h, ih]
    · simp [h, ih]

theorem countS_upsert (db : Db) (g x : String) :
    countS x (upsertProcessing db g) =
      if db.summaries.any (fun r => r.guardianId = g) then countS x db
      else countS x db + (if g = x then 1 else 0) := by
  unfold upsertProcessing countS
  by_cases h : db.summaries.any (fun r => r.guardianId = g)
  · simp only [h, if_true]
    exact length_filter_map_eq _ _ _ (fun r => by by_cases hg : r.guardianId = g <;> simp [hg])
  · rw [if_neg h, if_neg h]
    rw [List.filter_append, List.length_append]
    by_cases hg : g = x
    · simp [blankRow, hg]
    · simp [blankRow, hg]

theorem countS_complete (w : Bool) (db : Db) (g : String) (s : SummarizeOk)
    (wc cc : Nat) (sv : Option String) (x : String) :
    countS x (completeSummary w db g s wc cc sv) = countS x db := by
  unfold completeSummary countS
  exact length_filter_map_eq _ _ _ (fun r => by by_cases hg : r.guardianId = g <;> simp [hg])

theorem countS_fail (db : Db) (g m x : String) :
    countS x (failSummary db g m) = countS x db := by
  unfold failSummary countS
  exact length_filter_map_eq _ _ _ (fun r => by by_cases hg : r.guardianId = g <;> simp [hg])

theorem processedIds_upsert (db : Db) (g : String) :
    (upsertProcessing db g).processedIds = db.processedIds := by
  unfold upsertProcessing
  split <;> rfl

theorem articles_upsert (db : Db) (g : String) :
    (upsertProcessing db g).articles = db.articles := by
  unfold upsertProcessing
  split <;> rfl

theorem processOne_mem {a : FetchedArticle} {db : Db} (h : a.id ∈ db.processedIds)
    (w : Bool) (o : SummarizeOracle) :
    processOne w o db a = (db, Outcome.skipped) := by
  unfold processOne
  rw [if_pos h]

theorem processOne_processedIds (w : Bool) (o : SummarizeOracle) (db : Db)
    (a : FetchedArticle) :
    (processOne w o db a).1.processedIds =
      if a.id ∈ db.processedIds then db.processedIds else db.processedIds ++ [a.id] := by
  by_cases h : a.id ∈ db.processedIds
  · rw [processOne_mem h, if_pos h]
  · rw [if_neg h]
    unfold processOne
    rw [if_neg h]
    cases ho : o (cleanBodyText (a.fieldsBodyText.getD "")) a.sectionName with
    | ok s => simp only [ho, completeSummary, processedIds_upsert]
    | error e => simp only [ho, failSummary, processedIds_upsert]

theorem processOne_countA (w : Bool) (o : SummarizeOracle) (db : Db)
    (a : FetchedArticle) (x : String) :
    countA x (processOne w o db a).1 =
      if a.id ∈ db.processedIds then countA x db
      else countA x db + (if a.id = x then 1 else 0) := by
  by_cases h : a.id ∈ db.processedIds
  · rw [processOne_mem h, if_pos h]
  · rw [if_neg h]
    unfold processOne
    rw [if_neg h]
    cases ho : o (cleanBodyText (a.fieldsBodyText.getD "")) a.sectionName with
    | ok s =>
      simp only [ho, completeSummary, countA, articles_upsert]
      rw [List.filter_append, List.length_append]
      by_cases hg : a.id = x
      · simp [hg]
      · simp [hg]
    | error e =>
      simp only [ho, failSummary, countA, articles_upsert]
      rw [List.filter_append, List.length_append]
      by_cases hg : a.id = x
      · simp [hg]
      · simp [hg]

theorem processOne_countS (w : Bool) (o : SummarizeOracle) (db : Db)
    (a : FetchedArticle) (x : String) :
    countS x (processOne w o db a).1 =
      if a.id ∈ db.processedIds then countS x db
      else if db.summaries.any (fun r => r.guardianId = a.id) then countS x db
      else countS x db + (if a.id = x then 1 else 0) := by
  by_cases h : a.id ∈ db.processedIds
  · rw [processOne_mem h, if_pos h]
  · rw [if_neg h]
    unfold processOne
    rw [if_neg h]
    have hsum : ∀ db2 : Db, db2.summaries = db.summaries →
        countS x (upsertProcessing db2 a.id) =
          if db.summaries.any (fun r => r.guardianId = a.id) then countS x db
          else countS x db + (if a.id = x then 1 else 0) := by
      intro db2 hdb2
      rw [countS_upsert]
      have : countS a.id db2 = countS a.id db := by unfold countS; rw [hdb2]
      rw [hdb2]
      unfold countS
      rw [hdb2]
    cases ho : o (cleanBodyText (a.fieldsBodyText.getD "")) a.sectionName with
    | ok s =>
      simp only [ho]
      rw [countS_complete]
      exact hsum _ rfl
    | error e =>
      simp only [ho]
      rw [countS_fail]
      exact hsum _ rfl

theorem countS_zero_iff (db : Db) (g : String) :
    countS g db = 0 ↔ db.summaries.any (fun r => r.guardianId = g) = false := by
  unfold countS
  rw [List.length_eq_zero, List.filter_eq_nil_iff, List.any_eq_false]

theorem processOne_ids_mono {x : String} (w : Bool) (o : SummarizeOracle) (db : Db)
    (a : FetchedArticle) (h : x ∈ db.processedIds) :
    x ∈ (processOne w o db a).1.processedIds := by
  rw [processOne_processedIds]
  split
  · exact h
  · exact List.mem_append_left _ h

theorem processOne_ClaimedOnce {x : String} (w : Bool) (o : SummarizeOracle) (db : Db)
    (a : FetchedArticle) (h : ClaimedOnce x db) :
    ClaimedOnce x (processOne w o db a).1 := by
  obtain ⟨hm, ha, hs⟩ := h
  refine ⟨processOne_ids_mono w o db a hm, ?_, ?_⟩
  · rw [processOne_countA]
    split
    · exact ha
    · rename_i hnin
      have hne : ¬ a.id = x := fun he => hnin (he ▸ hm)
      simp [hne, ha]
  · rw [processOne_countS]
    split
    · exact hs
    · rename_i hnin
      have hne : ¬ a.id = x := fun he => hnin (he ▸ hm)
      split <;> simp [hne, hs]

theorem runList_ClaimedOnce (w : Bool) (o : SummarizeOracle) :
    ∀ (batch : List FetchedArticle) (db : Db) (x : String),
      ClaimedOnce x db → ClaimedOnce x (runList w o db batch).1 := by
  intro batch
  induction batch with
  | nil => intro db x h; exact h
  | cons a rest ih =>
    intro db x h
    exact ih _ x (processOne_ClaimedOnce w o db a h)

theorem processOne_FreshId {x : String} (w : Bool) (o : SummarizeOracle) (db : Db)
    (a : FetchedArticle) (h : FreshId x db) (hne : a.id ≠ x) :
    FreshId x (processOne w o db a).1 := by
  obtain ⟨hm, ha, hs⟩ := h
  refine ⟨?_, ?_, ?_⟩
  · rw [processOne_processedIds]
    split
    · exact hm
    · intro hmem
      rcases List.mem_append.mp hmem with h1 | h1
      · exact hm h1
      · exact hne (List.mem_singleton.mp h1).symm
  · rw [processOne_countA]
    split
    · exact ha
    · simp [hne, ha]
  · rw [processOne_countS]
    split
    · exact hs
    · split <;> simp [hne, hs]

theorem processOne_claims {x : String} (w : Bool) (o : SummarizeOracle) (db : Db)
    (a : FetchedArticle) (h : FreshId x db) (hid : a.id = x) :
    ClaimedOnce x (processOne w o db a).1 := by
  obtain ⟨hm, ha, hs⟩ := h
  have hnin : a.id ∉ db.processedIds := hid ▸ hm
  refine ⟨?_, ?_, ?_⟩
  · rw [processOne_processedIds, if_neg hnin]
    exact List.mem_append_right _ (hid ▸ List.mem_singleton_self a.id)
  · rw [processOne_countA, if_neg hnin, if_pos hid, ha]
  · rw [processOne_countS, if_neg hnin]
    have hany : db.summaries.any (fun r => r.guardianId = a.id) = false :=
      (countS_zero_iff db a.id).mp (hid ▸ hs)
    rw [if_neg (by simp [hany]), if_pos hid, hs]

theorem runList_fresh_to_claimed (w : Bool) (o : SummarizeOracle) :
    ∀ (batch : List FetchedArticle) (db : Db) (x : String),
      FreshId x db → x ∈ batch.map FetchedArticle.id →
      ClaimedOnce x (runList w o db batch).1 := by
  intro batch
  induction batch with
  | nil => intro db x _ hmem; simp at hmem
  | cons a rest ih =>
    intro db x hf hmem
    by_cases hid : a.id = x
    · exact runList_ClaimedOnce w o rest _ x (processOne_claims w o db a hf hid)
    · have : x ∈ rest.map FetchedArticle.id := by
        rcases List.mem_map.mp hmem with ⟨b, hb, hbx⟩
        rcases List.mem_cons.mp hb with rfl | hb2
        · exact absurd hbx hid
        · exact List.mem_map.mpr ⟨b, hb2, hbx⟩
      exact ih _ x (processOne_FreshId w o db a hf hid) this

theorem runList_skips (w : Bool) (o : SummarizeOracle) :
    ∀ (batch : List FetchedArticle) (db : Db) (x : String), x ∈ db.processedIds →
      ∀ p ∈ (runList w o db batch).2, p.1 = x → p.2 = Outcome.skipped := by
  intro batch
  induction batch with
  | nil => intro db x _ p hp; simp [runList] at hp
  | cons a rest ih =>
    intro db x hx p hp hpx
    simp only [runList, List.mem_cons] at hp
    rcases hp with rfl | hp
    · have hax : a.id = x := hpx
      have hmem : a.id ∈ db.processedIds := hax ▸ hx
      simp [processOne_mem hmem]
    · exact ih _ x (processOne_ids_mono w o db a hx) p hp hpx

theorem no_row_of_unmarked {db : Db} {g : String} (hWF : WFdb db)
    (h : g ∉ db.processedIds) :
    db.summaries.any (fun r => r.guardianId = g) = false := by
  rw [List.any_eq_false]
  intro r hr
  simp only [decide_eq_true_eq]
  intro hg
  exact h (hg ▸ hWF r hr)

theorem processOne_summary_rows (w : Bool) (o : SummarizeOracle) (db : Db)
    (a : FetchedArticle) (hWF : WFdb db) :
    ∀ r ∈ (processOne w o db a).1.summaries,
      r ∈ db.summaries ∨
      (r.processingStatus = ProcStatus.COMPLETED ∧ r.slug ≠ none ∧ w = true) ∨
      (r.processingStatus = ProcStatus.COMPLETED ∧ r.slug = none ∧ w = false) ∨
      (r.processingStatus = ProcStatus.FAILED ∧ r.slug = none) := by
  by_cases hmem : a.id ∈ db.processedIds
  · rw [processOne_mem hmem]
    intro r hr
    exact Or.inl hr
  · have hany := no_row_of_unmarked hWF hmem
    have hold : ∀ r ∈ db.summaries, ¬ r.guardianId = a.id := by
      rw [List.any_eq_false] at hany
      intro r hr
      simpa using hany r hr
    unfold processOne
    rw [if_neg hmem]
    have hupsert :
        (upsertProcessing
          { db with
            processedIds := db.processedIds ++ [a.id]
            articles := db.articles ++
              [⟨a.id, a.type, a.sectionName, a.webPublicationDate,
                cleanBodyText (a.fieldsBodyText.getD ""), a.fieldsThumbnail,
                countWords (cleanBodyText (a.fieldsBodyText.getD "")),
                countCharacters (cleanBodyText (a.fieldsBodyText.getD ""))⟩] }
          a.id).summaries =
        db.summaries ++ [blankRow a.id ProcStatus.PROCESSING none] := by
      unfold upsertProcessing
      rw [if_neg (by simp [hany])]
    cases ho : o (cleanBodyText (a.fieldsBodyText.getD "")) a.sectionName with
    | ok s =>
      simp only [ho]
      intro r hr
      simp only [completeSummary, hupsert] at hr
      rcases List.mem_map.mp hr with ⟨r0, hr0, hfr⟩
      rcases List.mem_append.mp hr0 with h0 | h0
      · left
        rw [← hfr]
        rw [if_neg (by simpa using hold r0 h0)]
        exact h0
      · have hblank : r0 = blankRow a.id ProcStatus.PROCESSING none :=
          List.mem_singleton.mp h0
        right
        rw [← hfr, hblank]
        cases w with
        | true =>
          left
          refine ⟨?_, ?_, rfl⟩ <;> simp [blankRow]
        | false =>
          right; left
          refine ⟨?_, ?_, rfl⟩ <;> simp [blankRow]
    | error e =>
      simp only [ho]
      intro r hr
      simp only [failSummary, hupsert] at hr
      rcases List.mem_map.mp hr with ⟨r0, hr0, hfr⟩
      rcases List.mem_append.mp hr0 with h0 | h0
      · left
        rw [← hfr]
        rw [if_neg (by simpa using hold r0 h0)]
        exact h0
      · have hblank : r0 = blankRow a.id ProcStatus.PROCESSING none :=
          List.mem_singleton.mp h0
        right; right; right
        rw [← hfr, hblank]
        constructor <;> simp [blankRow]

theorem processOne_summary_gids (w : Bool) (o : SummarizeOracle) (db : Db)
    (a : FetchedArticle) (hWF : WFdb db) :
    ∀ r ∈ (processOne w o db a).1.summaries,
      r.guardianId = a.id ∨ ∃ r0 ∈ db.summaries, r.guardianId = r0.guardianId := by
  by_cases hmem : a.id ∈ db.processedIds
  · rw [processOne_mem hmem]
    intro r hr
    exact Or.inr ⟨r, hr, rfl⟩
  · have hany := no_row_of_unmarked hWF hmem
    unfold processOne
    rw [if_neg hmem]
    have hupsert :
        (upsertProcessing
          { db with
            processedIds := db.processedIds ++ [a.id]
            articles := db.articles ++
              [⟨a.id, a.type, a.sectionName, a.webPublicationDate,
                cleanBodyText (a.fieldsBodyText.getD ""), a.fieldsThumbnail,
                countWords (cleanBodyText (a.fieldsBodyText.getD "")),
                countCharacters (cleanBodyText (a.fieldsBodyText.getD ""))⟩] }
          a.id).summaries =
        db.summaries ++ [blankRow a.id ProcStatus.PROCESSING none] := by
      unfold upsertProcessing
      rw [if_neg (by simp [hany])]
    cases ho : o (cleanBodyText (a.fieldsBodyText.getD "")) a.sectionName with
    | ok s =>
      simp only [ho]
      intro r hr
      simp only [completeSummary, hupsert] at hr
      rcases List.mem_map.mp hr with ⟨r0, hr0, hfr⟩
      have hgid : r.guardianId = r0.guardianId := by
        rw [← hfr]
        by_cases hg : r0.guardianId = a.id <;> simp [hg]
      rcases List.mem_append.mp hr0 with h0 | h0
      · exact Or.inr ⟨r0, h0, hgid⟩
      · left
        rw [hgid, List.mem_singleton.mp h0]
        rfl
    | error e =>
      simp only [ho]
      intro r hr
      simp only [failSummary, hupsert] at hr
      rcases List.mem_map.mp hr with ⟨r0, hr0, hfr⟩
      have hgid : r.guardianId = r0.guardianId := by
        rw [← hfr]
        by_cases hg : r0.guardianId = a.id <;> simp [hg]
      rcases List.mem_append.mp hr0 with h0 | h0
      · exact Or.inr ⟨r0, h0, hgid⟩
      · left
        rw [hgid, List.mem_singleton.mp h0]
        rfl

theorem processOne_WFdb (w : Bool) (o : SummarizeOracle) (db : Db)
    (a : FetchedArticle) (hWF : WFdb db) : WFdb (processOne w o db a).1 := by
  by_cases hmem : a.id ∈ db.processedIds
  · rw [processOne_mem hmem]
    exact hWF
  · intro r hr
    rw [processOne_processedIds, if_neg hmem]
    rcases processOne_summary_gids w o db a hWF r hr with h | ⟨r0, hr0, heq⟩
    · rw [h]
      exact List.mem_append_right _ (List.mem_singleton_self a.id)
    · rw [heq]
      exact List.mem_append_left _ (hWF r0 hr0)

theorem processOne_SlugIff (o : SummarizeOracle) (db : Db) (a : FetchedArticle)
    (hWF : WFdb db) (hIff : SlugIff db) : SlugIff (processOne true o db a).1 := by
  intro r hr
  rcases processOne_summary_rows true o db a hWF r hr with h | h | h | h
  · exact hIff r h
  · exact ⟨fun _ => h.1, fun _ => h.2.1⟩
  · exact absurd h.2.2 (by simp)
  · refine ⟨fun hs => absurd h.2 hs, fun hc => ?_⟩
    rw [h.1] at hc
    exact ProcStatus.noConfusion hc

theorem processOne_SlugOnlyIf (w : Bool) (o : SummarizeOracle) (db : Db)
    (a : FetchedArticle) (hWF : WFdb db) (hO : SlugOnlyIf db) :
    SlugOnlyIf (processOne w o db a).1 := by
  intro r hr
  rcases processOne_summary_rows w o db a hWF r hr with h | h | h | h
  · exact hO r h
  · exact fun _ => h.1
  · exact fun _ => h.1
  · exact fun hs => absurd h.2 hs

theorem runList_WFdb (w : Bool) (o : SummarizeOracle) :
    ∀ (batch : List FetchedArticle) (db : Db), WFdb db → WFdb (runList w o db batch).1 := by
  intro batch
  induction batch with
  | nil => intro db h; exact h
  | cons a rest ih => intro db h; exact ih _ (processOne_WFdb w o db a h)

theorem runList_SlugIff (o : SummarizeOracle) :
    ∀ (batch : List FetchedArticle) (db : Db), WFdb db → SlugIff db →
      SlugIff (runList true o db batch).1 := by
  intro batch
  induction batch with
  | nil => intro db _ h; exact h
  | cons a rest ih =>
    intro db hWF h
    exact ih _ (processOne_WFdb true o db a hWF) (processOne_SlugIff o db a hWF h)

theorem runList_SlugOnlyIf (w : Bool) (o : SummarizeOracle) :
    ∀ (batch : List FetchedArticle) (db : Db), WFdb db → SlugOnlyIf db →
      SlugOnlyIf (runList w o db batch).1 := by
  intro batch
  induction batch with
  | nil => intro db _ h; exact h
  | cons a rest ih =>
    intro db hWF h
    exact ih _ (processOne_WFdb w o db a hWF) (processOne_SlugOnlyIf w o db a hWF h)

theorem firstIncompleteFaq_none :
    ∀ (l : List Faq), (∀ f ∈ l, f.question ≠ "" ∧ f.answer ≠ "") →
      ∀ i, firstIncompleteFaq l i = none := by
  intro l
  induction l with
  | nil => intro _ i; rfl
  | cons f rest ih =>
    intro h i
    have hf := h f (List.mem_cons_self f rest)
    unfold firstIncompleteFaq
    rw [if_neg (by simp [hf.1, hf.2])]
    exact ih (fun g hg => h g (List.mem_cons_of_mem f hg)) (i + 1)

/-- C1: for every external article id, running the ingestion loop twice with
candidate sets that both contain that id results in exactly one
SourceArticle/SummaryRecord pair for that id, and every occurrence of the id
in the second run is skipped by the dedupe check, regardless of the outcome
of the first attempt (any oracle behaviour, either pipeline variant). -/
theorem c1_dedupe_idempotent (w1 w2 : Bool) (o1 o2 : SummarizeOracle) (db0 : Db)
    (x : String) (b1 b2 : List FetchedArticle) (h0 : FreshId x db0)
    (h1 : x ∈ b1.map FetchedArticle.id) (_h2 : x ∈ b2.map FetchedArticle.id) :
    countA x (runList w2 o2 (runList w1 o1 db0 b1).1 b2).1 = 1 ∧
    countS x (runList w2 o2 (runList w1 o1 db0 b1).1 b2).1 = 1 ∧
    (∀ p ∈ (runList w2 o2 (runList w1 o1 db0 b1).1 b2).2,
      p.1 = x → p.2 = Outcome.skipped) := by
  have hc1 := runList_fresh_to_claimed w1 o1 b1 db0 x h0 h1
  have hc2 := runList_ClaimedOnce w2 o2 b2 _ x hc1
  exact ⟨hc2.2.1, hc2.2.2, runList_skips w2 o2 b2 _ x hc1.1⟩

/-- C1 witness: a concrete double run over the same one-article batch. -/
theorem c1_witness :
    FreshId "g1" emptyDb ∧
    "g1" ∈ [demoArticle].map FetchedArticle.id ∧
    (countA "g1" (runList false demoOracle
        (runList false demoOracle emptyDb [demoArticle]).1 [demoArticle]).1 = 1 ∧
     countS "g1" (runList false demoOracle
        (runList false demoOracle emptyDb [demoArticle]).1 [demoArticle]).1 = 1 ∧
     (∀ p ∈ (runList false demoOracle
        (runList false demoOracle emptyDb [demoArticle]).1 [demoArticle]).2,
        p.1 = "g1" → p.2 = Outcome.skipped)) :=
  ⟨⟨List.not_mem_nil _, rfl, rfl⟩, by decide,
   c1_dedupe_idempotent false false demoOracle demoOracle emptyDb "g1"
     [demoArticle] [demoArticle] ⟨List.not_mem_nil _, rfl, rfl⟩ (by decide) (by decide)⟩

/-- C2 counterexample: the manual-fetch pipeline (which never writes the slug
column) produces a SummaryRecord with status COMPLETED and a null slug,
refuting the claimed equivalence for records produced by any pipeline
operation. -/
theorem c2_counterexample :
    ∃ r ∈ (runBatch false demoOracle emptyDb [demoArticle]).1.summaries,
      r.processingStatus = ProcStatus.COMPLETED ∧ r.slug = none := by decide

/-- C2 (amended): slug non-null implies COMPLETED for records produced by
either pipeline variant, and the full equivalence (slug non-null iff
COMPLETED) is preserved by the cron ingestion pipeline; the manual-fetch
variant preserves only the implication because its COMPLETED update does not
write the slug. -/
theorem c2_slug_iff_completed_amended (o : SummarizeOracle)
    (batch : List FetchedArticle) (db : Db) (hWF : WFdb db) :
    (SlugIff db → SlugIff (runBatch true o db batch).1) ∧
    (∀ w, SlugOnlyIf db → SlugOnlyIf (runBatch w o db batch).1) :=
  ⟨fun h => runList_SlugIff o batch db hWF h,
   fun w h => runList_SlugOnlyIf w o batch db hWF h⟩

/-- C2 witness: the amended preservation result applied to a concrete run
from the empty store. -/
theorem c2_witness :
    WFdb emptyDb ∧
    ((SlugIff emptyDb → SlugIff (runBatch true demoOracle emptyDb [demoArticle]).1) ∧
     (∀ w, SlugOnlyIf emptyDb →
        SlugOnlyIf (runBatch w demoOracle emptyDb [demoArticle]).1)) :=
  ⟨fun r hr => absurd hr (List.not_mem_nil r),
   c2_slug_iff_completed_amended demoOracle [demoArticle] emptyDb
     (fun r hr => absurd hr (List.not_mem_nil r))⟩

/-- C3: a batch of 10 fetched candidates with 2 pre-existing markers, 1
summarization failure and 7 successes reports articlesFound 10,
articlesProcessed 7, articlesFailed 1 with the single error message, and the
two duplicates produce skipped outcomes counted in neither counter. -/
theorem c3_run_aggregation :
    (runBatch true c3Oracle c3Db c3Batch).2 =
      ⟨10, 7, 1, ["Article a3: boom"]⟩ ∧
    ((runList true c3Oracle c3Db c3Batch).2.filter
      (fun p => p.2 = Outcome.skipped)).length = 2 := by decide

/-- C4 counterexample: the normalized text "Hello world test" has 16
characters, not 17 as claimed. -/
theorem c4_counterexample :
    countCharacters (cleanBodyText "<p>Hello   world</p>&nbsp;test") ≠ 17 := by decide

/-- C4 (amended): text normalization of the exact input yields clean text
"Hello world test", word count 3, and character count 16. -/
theorem c4_normalization :
    cleanBodyText "<p>Hello   world</p>&nbsp;test" = "Hello world test" ∧
    countWords (cleanBodyText "<p>Hello   world</p>&nbsp;test") = 3 ∧
    countCharacters (cleanBodyText "<p>Hello   world</p>&nbsp;test") = 16 := by decide

/-- C5: a summarization result whose tldr has length 2 (its earlier fields
valid) is rejected with the TLDR-count validation error, while a result with
3 non-empty bullet points and 5 complete FAQ pairs (the other fields
satisfying their constraints) passes validation. -/
theorem c5_validation_boundary :
    (∀ s : ArticleSummary,
      s.heading ≠ "" → ¬ s.heading.length < 5 →
      s.category ≠ "" → ¬ spaceSplitCount s.category > 3 →
      s.summary ≠ "" → ¬ s.summary.length < 200 →
      s.tldr.length = 2 →
      validateSummary s = Except.error "TLDR must have exactly 3 points") ∧
    (∀ s : ArticleSummary,
      s.heading ≠ "" → ¬ s.heading.length < 5 →
      s.category ≠ "" → ¬ spaceSplitCount s.category > 3 →
      s.summary ≠ "" → ¬ s.summary.length < 200 →
      s.tldr.length = 3 → s.faqs.length = 5 →
      (∀ f ∈ s.faqs, f.question ≠ "" ∧ f.answer ≠ "") →
      validateSummary s = Except.ok ()) := by
  constructor
  · intro s h1 h2 h3 h4 h5 h6 h7
    unfold validateSummary
    rw [if_neg (by simp [h1, h2]), if_neg (by simp [h3, h4]), if_neg (by simp [h5, h6]),
      if_pos (by simp [h7])]
  · intro s h1 h2 h3 h4 h5 h6 h7 h8 h9
    unfold validateSummary
    rw [if_neg (by simp [h1, h2]), if_neg (by simp [h3, h4]), if_neg (by simp [h5, h6]),
      if_neg (by simp [h7]), if_neg (by simp [h8]),
      firstIncompleteFaq_none s.faqs h9 0]

set_option maxRecDepth 4000 in
/-- C5 witness: the two concrete boundary instances. -/
theorem c5_witness :
    validateSummary badTldrSummary = Except.error "TLDR must have exactly 3 points" ∧
    validateSummary goodSummary = Except.ok () :=
  ⟨c5_validation_boundary.1 badTldrSummary (by decide) (by decide) (by decide)
      (by decide) (by decide) (by decide) (by decide),
   c5_validation_boundary.2 goodSummary (by decide) (by decide) (by decide)
      (by decide) (by decide) (by decide) (by decide) (by decide) (by decide)⟩

/-- C6: slug assignment returns the first free candidate in the order base,
base-1, base-2, ... (every earlier candidate being taken by a different
article), and concretely a new heading basing to "breaking-news" while
"breaking-news" is held by a different article yields "breaking-news-1". -/
theorem c6_collision_resolution :
    (∀ (base : String) (store : SlugStore) (excludeId : Option String),
      ∃ j, ensureUniqueSlug base store excludeId = slugCandidate base j ∧
        slugFree store excludeId (slugCandidate base j) = true ∧
        ∀ i, i < j → slugFree store excludeId (slugCandidate base i) = false) ∧
    ensureUniqueSlug "breaking-news" [("breaking-news", "other-article")]
      (some "new-article") = "breaking-news-1" := by
  constructor
  · intro base store excludeId
    obtain ⟨j, hj, hfree⟩ := exists_free_candidate store excludeId base
    have hex : ∃ j2, j2 < store.length + 1 ∧
        slugFree store excludeId (slugCandidate base (0 + j2)) = true :=
      ⟨j, by omega, by simpa using hfree⟩
    obtain ⟨j2, h1, h2, h3⟩ := ensureGo_spec store excludeId base (store.length + 1) 0 hex
    exact ⟨j2, by simpa using h3, by simpa using h1, fun i hi => by simpa using h2 i hi⟩
  · decide

/-- C6 witness: the ordered-search property at a concrete store. -/
theorem c6_witness :
    ∃ j, ensureUniqueSlug "breaking-news" [("breaking-news", "other-article")]
        (some "new-article") = slugCandidate "breaking-news" j ∧
      slugFree [("breaking-news", "other-article")] (some "new-article")
        (slugCandidate "breaking-news" j) = true ∧
      ∀ i, i < j → slugFree [("breaking-news", "other-article")] (some "new-article")
        (slugCandidate "breaking-news" i) = false :=
  c6_collision_resolution.1 "breaking-news" [("breaking-news", "other-article")]
    (some "new-article")

/-! #### Correctness of the binary64 rounding model -/

theorem nlog2Aux_spec :
    ∀ (fuel n : ℕ), 1 ≤ n → n ≤ fuel →
      2 ^ nlog2Aux fuel n ≤ n ∧ n < 2 ^ (nlog2Aux fuel n + 1) := by
  intro fuel
  induction fuel with
  | zero => intro n h1 h0; omega
  | succ fuel ih =>
    intro n h1 hle
    by_cases hsmall : n ≤ 1
    · have hn : n = 1 := by omega
      simp [nlog2Aux, hsmall, hn]
    · have h2 : 2 ≤ n := by omega
      have hm1 : 1 ≤ n / 2 := by omega
      have hmle : n / 2 ≤ fuel := by omega
      obtain ⟨hlo, hhi⟩ := ih (n / 2) hm1 hmle
      have hstep : nlog2Aux (fuel + 1) n = nlog2Aux fuel (n / 2) + 1 := by
        simp [nlog2Aux, hsmall]
      rw [hstep]
      constructor
      · have : 2 ^ (nlog2Aux fuel (n / 2) + 1) = 2 * 2 ^ nlog2Aux fuel (n / 2) := by
          rw [pow_succ]; ring
        rw [this]
        omega
      · have : 2 ^ (nlog2Aux fuel (n / 2) + 1 + 1) = 2 * 2 ^ (nlog2Aux fuel (n / 2) + 1) := by
          rw [pow_succ]; ring
        rw [this]
        omega

theorem nlog2_spec {n : ℕ} (h : 1 ≤ n) : 2 ^ nlog2 n ≤ n ∧ n < 2 ^ (nlog2 n + 1) :=
  nlog2Aux_spec n n h (le_refl n)

theorem pow2z_eq_zpow (z : ℤ) : pow2z z = (2 : ℚ) ^ z := by
  unfold pow2z
  split
  · rename_i h
    rw [show ((2 ^ z.toNat : ℕ) : ℚ) = (2 : ℚ) ^ z.toNat by push_cast; rfl,
      ← zpow_natCast (2 : ℚ) z.toNat, Int.toNat_of_nonneg h]
  · rename_i h
    rw [show ((2 ^ (-z).toNat : ℕ) : ℚ) = (2 : ℚ) ^ (-z).toNat by push_cast; rfl,
      ← zpow_natCast (2 : ℚ) (-z).toNat, Int.toNat_of_nonneg (by omega), ← zpow_neg, neg_neg]

theorem pow2z_pos (z : ℤ) : 0 < pow2z z := by
  rw [pow2z_eq_zpow]
  exact zpow_pos (by norm_num) z

theorem pow2z_mul (a b : ℤ) : pow2z a * pow2z b = pow2z (a + b) := by
  rw [pow2z_eq_zpow, pow2z_eq_zpow, pow2z_eq_zpow, ← zpow_add₀ (by norm_num : (2:ℚ) ≠ 0)]

theorem pow2z_div (a b : ℤ) : pow2z a / pow2z b = pow2z (a - b) := by
  rw [pow2z_eq_zpow, pow2z_eq_zpow, pow2z_eq_zpow, ← zpow_sub₀ (by norm_num : (2:ℚ) ≠ 0)]

theorem pow2z_natCast (k : ℕ) : pow2z (k : ℤ) = (2 : ℚ) ^ k := by
  rw [pow2z_eq_zpow, zpow_natCast]

theorem pow2z_mono {a b : ℤ} (h : a ≤ b) : pow2z a ≤ pow2z b := by
  rw [pow2z_eq_zpow, pow2z_eq_zpow]
  exact zpow_le_zpow_right₀ (by norm_num) h

theorem pow2z_sub_nat (m n : ℕ) : pow2z ((m : ℤ) - (n : ℤ)) = (2 ^ m : ℚ) / (2 ^ n : ℚ) := by
  rw [← pow2z_div, pow2z_natCast, pow2z_natCast]

theorem num_toNat_cast {q : ℚ} (hq : 0 < q) : ((q.num.toNat : ℕ) : ℚ) = (q.num : ℚ) := by
  have : (q.num.toNat : ℤ) = q.num := Int.toNat_of_nonneg (by positivity)
  exact_mod_cast congrArg (fun z : ℤ => (z : ℚ)) this

theorem q_eq_div {q : ℚ} (hq : 0 < q) : q = ((q.num.toNat : ℕ) : ℚ) / ((q.den : ℕ) : ℚ) := by
  rw [num_toNat_cast hq, Rat.num_div_den]

theorem pow2Le_iff (a b : ℕ) (hb : 0 < b) (z : ℤ) :
    pow2Le z a b = true ↔ pow2z z ≤ (a : ℚ) / (b : ℚ) := by
  have hbQ : (0 : ℚ) < (b : ℚ) := by exact_mod_cast hb
  unfold pow2Le
  split
  · rename_i h0
    have hz : pow2z z = ((2 ^ z.toNat : ℕ) : ℚ) := by unfold pow2z; rw [if_pos h0]
    rw [decide_eq_true_eq, hz, le_div_iff₀ hbQ,
      show ((2 ^ z.toNat : ℕ) : ℚ) * (b : ℚ) = ((2 ^ z.toNat * b : ℕ) : ℚ) by push_cast; ring,
      Nat.cast_le, Nat.mul_comm b (2 ^ z.toNat)]
  · rename_i h0
    have hz : pow2z z = (((2 ^ (-z).toNat : ℕ) : ℚ))⁻¹ := by unfold pow2z; rw [if_neg h0]
    have hpQ : (0 : ℚ) < ((2 ^ (-z).toNat : ℕ) : ℚ) := by positivity
    rw [decide_eq_true_eq, hz, inv_eq_one_div, div_le_div_iff₀ hpQ hbQ, one_mul,
      show (a : ℚ) * ((2 ^ (-z).toNat : ℕ) : ℚ) = ((a * 2 ^ (-z).toNat : ℕ) : ℚ) by
        push_cast; ring,
      Nat.cast_le]

theorem qilog2_spec {q : ℚ} (hq : 0 < q) :
    pow2z (qilog2 q) ≤ q ∧ q < pow2z (qilog2 q + 1) := by
  have ha : 1 ≤ q.num.toNat := by
    have : 0 < q.num := Rat.num_pos.mpr hq
    omega
  have hb : 0 < q.den := q.pos
  have hq_ab : q = ((q.num.toNat : ℕ) : ℚ) / ((q.den : ℕ) : ℚ) := q_eq_div hq
  obtain ⟨hla1, hla2⟩ := nlog2_spec ha
  obtain ⟨hlb1, hlb2⟩ := nlog2_spec (by omega : 1 ≤ q.den)
  have hbQ : (0 : ℚ) < ((q.den : ℕ) : ℚ) := by exact_mod_cast hb
  have hhigh : q < pow2z ((nlog2 q.num.toNat : ℤ) - (nlog2 q.den : ℤ) + 1) := by
    rw [show (nlog2 q.num.toNat : ℤ) - (nlog2 q.den : ℤ) + 1 =
        ((nlog2 q.num.toNat + 1 : ℕ) : ℤ) - ((nlog2 q.den : ℕ) : ℤ) by push_cast; ring,
      pow2z_sub_nat]
    have hN : q.num.toNat * 2 ^ nlog2 q.den < 2 ^ (nlog2 q.num.toNat + 1) * q.den := by
      calc q.num.toNat * 2 ^ nlog2 q.den
          < 2 ^ (nlog2 q.num.toNat + 1) * 2 ^ nlog2 q.den :=
            (Nat.mul_lt_mul_right (by positivity)).mpr hla2
        _ ≤ 2 ^ (nlog2 q.num.toNat + 1) * q.den := Nat.mul_le_mul_left _ hlb1
    have hQ : ((q.num.toNat : ℕ) : ℚ) / ((q.den : ℕ) : ℚ) <
        (2 ^ (nlog2 q.num.toNat + 1) : ℚ) / (2 ^ nlog2 q.den : ℚ) := by
      rw [div_lt_div_iff₀ hbQ (by positivity)]
      exact_mod_cast hN
    rw [← hq_ab] at hQ
    exact hQ
  have hlow : pow2z ((nlog2 q.num.toNat : ℤ) - (nlog2 q.den : ℤ) - 1) < q := by
    rw [show (nlog2 q.num.toNat : ℤ) - (nlog2 q.den : ℤ) - 1 =
        ((nlog2 q.num.toNat : ℕ) : ℤ) - ((nlog2 q.den + 1 : ℕ) : ℤ) by push_cast; ring,
      pow2z_sub_nat]
    have hN : 2 ^ nlog2 q.num.toNat * q.den < q.num.toNat * 2 ^ (nlog2 q.den + 1) := by
      calc 2 ^ nlog2 q.num.toNat * q.den
          < 2 ^ nlog2 q.num.toNat * 2 ^ (nlog2 q.den + 1) :=
            (Nat.mul_lt_mul_left (by positivity)).mpr hlb2
        _ ≤ q.num.toNat * 2 ^ (nlog2 q.den + 1) := Nat.mul_le_mul_right _ hla1
    have hQ : (2 ^ nlog2 q.num.toNat : ℚ) / (2 ^ (nlog2 q.den + 1) : ℚ) <
        ((q.num.toNat : ℕ) : ℚ) / ((q.den : ℕ) : ℚ) := by
      rw [div_lt_div_iff₀ (by positivity) hbQ]
      exact_mod_cast hN
    rw [← hq_ab] at hQ
    exact hQ
  have hsplit : qilog2 q = if pow2Le ((nlog2 q.num.toNat : ℤ) - (nlog2 q.den : ℤ))
      q.num.toNat q.den then (nlog2 q.num.toNat : ℤ) - (nlog2 q.den : ℤ)
    else (nlog2 q.num.toNat : ℤ) - (nlog2 q.den : ℤ) - 1 := rfl
  rw [hsplit]
  split
  · rename_i hif
    refine ⟨?_, hhigh⟩
    have := (pow2Le_iff q.num.toNat q.den hb _).mp hif
    rwa [← hq_ab] at this
  · rename_i hif
    have hnot : ¬ pow2z ((nlog2 q.num.toNat : ℤ) - (nlog2 q.den : ℤ)) ≤ q := by
      intro hcon
      exact hif ((pow2Le_iff q.num.toNat q.den hb _).mpr (by rwa [← hq_ab]))
    refine ⟨le_of_lt hlow, ?_⟩
    rw [show (nlog2 q.num.toNat : ℤ) - (nlog2 q.den : ℤ) - 1 + 1 =
        (nlog2 q.num.toNat : ℤ) - (nlog2 q.den : ℤ) by ring]
    exact not_le.mp hnot

theorem rhe_dist (x : ℚ) : |((rhe x : ℤ) : ℚ) - x| ≤ 1 / 2 := by
  have hden : (0 : ℚ) < ((x.den : ℕ) : ℚ) := by exact_mod_cast x.pos
  have h0 := Rat.num_div_den x
  have hnum : (x.num : ℚ) = x * ((x.den : ℕ) : ℚ) := by
    have hmul := congrArg (fun y : ℚ => y * ((x.den : ℕ) : ℚ)) h0
    simp only at hmul
    rw [div_mul_cancel₀ _ (ne_of_gt hden)] at hmul
    exact hmul
  have hfr : ((x.num - ⌊x⌋ * (x.den : ℤ) : ℤ) : ℚ) / ((x.den : ℕ) : ℚ) = x - (⌊x⌋ : ℚ) := by
    rw [show ((x.num - ⌊x⌋ * (x.den : ℤ) : ℤ) : ℚ) = (x - (⌊x⌋ : ℚ)) * ((x.den : ℕ) : ℚ) by
      push_cast
      rw [hnum]
      ring]
    exact mul_div_cancel_right₀ _ (ne_of_gt hden)
  have hF0 : 0 ≤ x - (⌊x⌋ : ℚ) := by linarith [Int.floor_le x]
  have hF1 : x - (⌊x⌋ : ℚ) < 1 := by linarith [Int.lt_floor_add_one x]
  simp only [rhe]
  split
  · rename_i hlt
    have hc : ((2 * (x.num - ⌊x⌋ * (x.den : ℤ)) : ℤ) : ℚ) < ((x.den : ℕ) : ℚ) := by
      exact_mod_cast hlt
    have hF : x - (⌊x⌋ : ℚ) < 1 / 2 := by
      rw [← hfr, div_lt_iff₀ hden]
      push_cast at hc ⊢
      linarith
    rw [abs_sub_comm, abs_of_nonneg hF0]
    linarith
  · split
    · rename_i hno hgt
      have hc : ((x.den : ℕ) : ℚ) < ((2 * (x.num - ⌊x⌋ * (x.den : ℤ)) : ℤ) : ℚ) := by
        exact_mod_cast hgt
      have hF : 1 / 2 < x - (⌊x⌋ : ℚ) := by
        rw [← hfr, lt_div_iff₀ hden]
        push_cast at hc ⊢
        linarith
      have habs : |((⌊x⌋ + 1 : ℤ) : ℚ) - x| = 1 - (x - (⌊x⌋ : ℚ)) := by
        rw [abs_of_nonneg (by push_cast; linarith)]
        push_cast
        ring
      rw [habs]
      linarith
    · rename_i hno1 hno2
      have heq : ((2 * (x.num - ⌊x⌋ * (x.den : ℤ)) : ℤ) : ℚ) = ((x.den : ℕ) : ℚ) := by
        exact_mod_cast le_antisymm (not_lt.mp hno2) (not_lt.mp hno1)
      have hF : x - (⌊x⌋ : ℚ) = 1 / 2 := by
        rw [← hfr, div_eq_iff (ne_of_gt hden)]
        push_cast at heq ⊢
        linarith
      split
      · rw [abs_sub_comm, abs_of_nonneg hF0, hF]
      · have habs : |((⌊x⌋ + 1 : ℤ) : ℚ) - x| = 1 - (x - (⌊x⌋ : ℚ)) := by
          rw [abs_of_nonneg (by push_cast; linarith)]
          push_cast
          ring
        rw [habs, hF]
        norm_num

theorem rhe_int (n : ℤ) : rhe ((n : ℤ) : ℚ) = n := by
  simp only [rhe, Int.floor_intCast, Rat.intCast_num, Rat.intCast_den]
  norm_num

theorem fl_of_pos {q : ℚ} (hq : 0 < q) : fl q = flPos q := by
  have hn : 0 < q.num := Rat.num_pos.mpr hq
  unfold fl
  rw [if_neg (by omega), if_neg (by omega)]

theorem fl_error {q : ℚ} (hq : 0 < q) : |fl q - q| ≤ q / 2 ^ 53 := by
  obtain ⟨hlo, hhi⟩ := qilog2_spec hq
  have hpe : 0 < pow2z (qilog2 q - 52) := pow2z_pos _
  set e : ℤ := qilog2 q - 52 with he
  set m : ℚ := q / pow2z e with hm
  have hqm : q = m * pow2z e := by rw [hm, div_mul_cancel₀ _ (ne_of_gt hpe)]
  have hm_lo : (2 : ℚ) ^ 52 ≤ m := by
    rw [hm, le_div_iff₀ hpe]
    calc (2 : ℚ) ^ 52 * pow2z e = pow2z ((52 : ℕ) : ℤ) * pow2z e := by
          rw [pow2z_natCast]
      _ = pow2z (((52 : ℕ) : ℤ) + e) := pow2z_mul _ e
      _ = pow2z (qilog2 q) := by rw [he]; ring_nf
      _ ≤ q := hlo
  have hfl : fl q = ((rhe m : ℤ) : ℚ) * pow2z e := by
    rw [fl_of_pos hq]
    rfl
  have hdist : |fl q - q| = |((rhe m : ℤ) : ℚ) - m| * pow2z e := by
    rw [hfl]
    nth_rewrite 1 [hqm]
    rw [← sub_mul, abs_mul, abs_of_pos hpe]
  rw [hdist]
  have hb : pow2z e ≤ q / 2 ^ 52 := by
    rw [le_div_iff₀ (by positivity : (0 : ℚ) < 2 ^ 52)]
    calc pow2z e * 2 ^ 52 = 2 ^ 52 * pow2z e := by ring
      _ ≤ m * pow2z e := mul_le_mul_of_nonneg_right hm_lo (le_of_lt hpe)
      _ = q := hqm.symm
  calc |((rhe m : ℤ) : ℚ) - m| * pow2z e ≤ (1 / 2) * pow2z e :=
        mul_le_mul_of_nonneg_right (rhe_dist m) (le_of_lt hpe)
    _ ≤ (1 / 2) * (q / 2 ^ 52) := mul_le_mul_of_nonneg_left hb (by norm_num)
    _ = q / 2 ^ 53 := by
        rw [show (2 : ℚ) ^ 53 = 2 * 2 ^ 52 by norm_num [pow_succ]]
        ring

theorem fl_nat {n : ℕ} (h1 : 1 ≤ n) (h52 : n ≤ 2 ^ 52) : fl ((n : ℕ) : ℚ) = n := by
  have hq : (0 : ℚ) < ((n : ℕ) : ℚ) := by exact_mod_cast h1
  have hle : qilog2 ((n : ℕ) : ℚ) ≤ 52 := by
    by_contra hcon
    push_neg at hcon
    have h53 : (53 : ℤ) ≤ qilog2 ((n : ℕ) : ℚ) := by omega
    have hb := le_trans (pow2z_mono h53) (qilog2_spec hq).1
    rw [show (53 : ℤ) = ((53 : ℕ) : ℤ) by norm_num, pow2z_natCast] at hb
    have : (2 : ℚ) ^ 53 ≤ (2 : ℚ) ^ 52 := le_trans hb (by exact_mod_cast h52)
    norm_num at this
  set e : ℤ := qilog2 ((n : ℕ) : ℚ) - 52 with he
  have he0 : e ≤ 0 := by omega
  have hp0 : pow2z 0 = 1 := by norm_num [pow2z]
  have hneg : pow2z (-e) = ((2 ^ (-e).toNat : ℕ) : ℚ) := by
    unfold pow2z
    rw [if_pos (by omega)]
  have hneg2 : pow2z (-e) = (2 : ℚ) ^ (-e).toNat := by
    rw [hneg]
    push_cast
    rfl
  have hinv : pow2z (-e) * pow2z e = 1 := by
    rw [pow2z_mul, show -e + e = 0 by ring, hp0]
  have hm : ((n : ℕ) : ℚ) / pow2z e = ((n * 2 ^ (-e).toNat : ℕ) : ℚ) := by
    rw [div_eq_iff (ne_of_gt (pow2z_pos e))]
    push_cast
    rw [mul_assoc, ← hneg2, hinv, mul_one]
  have hmInt : rhe (((n * 2 ^ (-e).toNat : ℕ) : ℚ)) = ((n * 2 ^ (-e).toNat : ℕ) : ℤ) := by
    have hcast : (((n * 2 ^ (-e).toNat : ℕ) : ℤ) : ℚ) = ((n * 2 ^ (-e).toNat : ℕ) : ℚ) := by
      push_cast
      rfl
    have := rhe_int ((n * 2 ^ (-e).toNat : ℕ) : ℤ)
    rwa [hcast] at this
  rw [fl_of_pos hq]
  unfold flPos
  rw [← he, hm, hmInt]
  push_cast
  rw [mul_assoc, ← hneg2, hinv, mul_one]

theorem abs_floor_sub_le {a b : ℚ} (h : |a - b| < 1) : |(⌊a⌋ : ℤ) - ⌊b⌋| ≤ 1 := by
  obtain ⟨h1, h2⟩ := abs_lt.mp h
  have ha : ⌊a⌋ ≤ ⌊b⌋ + 1 := by
    calc ⌊a⌋ ≤ ⌊b + 1⌋ := Int.floor_le_floor (by linarith)
      _ = ⌊b⌋ + 1 := Int.floor_add_one b
  have hb : ⌊b⌋ ≤ ⌊a⌋ + 1 := by
    calc ⌊b⌋ ≤ ⌊a + 1⌋ := Int.floor_le_floor (by linarith)
      _ = ⌊a⌋ + 1 := Int.floor_add_one a
  rw [abs_le]
  omega

theorem floor_natCast_div (N b : ℕ) (hb : 0 < b) :
    ⌊((N : ℕ) : ℚ) / ((b : ℕ) : ℚ)⌋ = ((N / b : ℕ) : ℤ) := by
  have hbQ : (0 : ℚ) < ((b : ℕ) : ℚ) := by exact_mod_cast hb
  rw [Int.floor_eq_iff]
  constructor
  · rw [le_div_iff₀ hbQ]
    exact_mod_cast Nat.div_mul_le_self N b
  · rw [div_lt_iff₀ hbQ]
    have hN : N < (N / b + 1) * b := by
      have hdm := Nat.div_add_mod N b
      have hmod := Nat.mod_lt N hb
      calc N = b * (N / b) + N % b := hdm.symm
        _ < b * (N / b) + b := by omega
        _ = (N / b + 1) * b := by ring
    exact_mod_cast hN

theorem floor_t_mul_frac (t a b : ℕ) (hb : 0 < b) :
    ⌊(t : ℚ) * ((a : ℚ) / (b : ℚ))⌋ = ((a * t / b : ℕ) : ℤ) := by
  rw [show (t : ℚ) * ((a : ℚ) / (b : ℚ)) = ((a * t : ℕ) : ℚ) / ((b : ℕ) : ℚ) by
    push_cast; ring]
  exact floor_natCast_div (a * t) b hb

theorem floor_mul_close (t : ℕ) (h1 : 1 ≤ t) (h52 : t ≤ 2 ^ 52) {c : ℚ} (hc0 : 0 < c)
    (hc1 : c ≤ 7 / 10) :
    |(⌊fl ((t : ℚ) * fl c)⌋ : ℤ) - ⌊(t : ℚ) * c⌋| ≤ 1 := by
  have htQ0 : (0 : ℚ) < (t : ℚ) := by exact_mod_cast h1
  have htQ : (t : ℚ) ≤ 2 ^ 52 := by exact_mod_cast h52
  obtain ⟨hdl, hdu⟩ := abs_le.mp (fl_error hc0)
  have hd0 : 0 < fl c := by
    have hcs : c / 2 ^ 53 < c := div_lt_self hc0 (by norm_num)
    linarith
  have hx0 : (0 : ℚ) < (t : ℚ) * fl c := by positivity
  obtain ⟨hxl, hxu⟩ := abs_le.mp (fl_error hx0)
  set u : ℚ := (t : ℚ) * c with hu_def
  set v : ℚ := (t : ℚ) * fl c with hv_def
  set w : ℚ := fl ((t : ℚ) * fl c) with hw_def
  have hu0 : 0 < u := by rw [hu_def]; positivity
  have hu : u ≤ 2 ^ 52 * (7 / 10) := by
    rw [hu_def]
    exact mul_le_mul htQ hc1 hc0.le (by positivity)
  have P1 : v - u ≤ u / 2 ^ 53 := by
    calc v - u = (t : ℚ) * (fl c - c) := by rw [hv_def, hu_def]; ring
      _ ≤ (t : ℚ) * (c / 2 ^ 53) := mul_le_mul_of_nonneg_left hdu htQ0.le
      _ = u / 2 ^ 53 := by rw [hu_def]; ring
  have P2 : -(u / 2 ^ 53) ≤ v - u := by
    calc -(u / 2 ^ 53) = (t : ℚ) * (-(c / 2 ^ 53)) := by rw [hu_def]; ring
      _ ≤ (t : ℚ) * (fl c - c) := mul_le_mul_of_nonneg_left hdl htQ0.le
      _ = v - u := by rw [hv_def, hu_def]; ring
  have habs : |w - u| < 1 := by
    rw [abs_lt]
    constructor
    · linarith
    · linarith
  exact abs_floor_sub_le habs

theorem floor_seven_tenths (t : ℕ) : ⌊(t : ℚ) * (7 / 10)⌋ = ((7 * t / 10 : ℕ) : ℤ) := by
  have h := floor_t_mul_frac t 7 10 (by norm_num)
  rwa [show ((7 : ℕ) : ℚ) = (7 : ℚ) by norm_num,
    show ((10 : ℕ) : ℚ) = (10 : ℚ) by norm_num] at h

theorem floor_three_tenths (t : ℕ) : ⌊(t : ℚ) * (3 / 10)⌋ = ((3 * t / 10 : ℕ) : ℤ) := by
  have h := floor_t_mul_frac t 3 10 (by norm_num)
  rwa [show ((3 : ℕ) : ℚ) = (3 : ℚ) by norm_num,
    show ((10 : ℕ) : ℚ) = (10 : ℚ) by norm_num] at h

set_option maxRecDepth 40000 in
unseal Rat.mul Rat.inv Rat.add Rat.sub Rat.ofScientific in
/-- C7 counterexample: at a total of 90 tokens the binary64 product
`90 * 0.7` is the double just below 63, so the program floors the input side
to 62 tokens while the claimed exact split `floor(0.7 * 90)` gives 63, and
the cost computed by the program differs from the value of the claimed
formula. -/
theorem c7_counterexample :
    (⌊fl ((90 : ℚ) * fl (7 / 10))⌋ : ℤ) = 62 ∧
    (7 * 90 / 10 : ℕ) = 63 ∧
    calculateCost 90 ≠ claimedCost 90 := by decide

/-- C7 (amended): for every token count between 1 and 2^52, the estimated
cost is the binary64 sum of an input cost and an output cost, each obtained
by charging its independent per-1000-token rate (the binary64 values of
0.005 and 0.015 USD) on a floored input/output token split, and that split
is the binary64 evaluation of the 70/30 split: its input and output token
counts differ from the exact `floor(0.7 * t)` and `floor(0.3 * t)` by at
most one token (double rounding shifts them, for example at t = 90). -/
theorem c7_cost_split_amended (t : ℕ) (h1 : 1 ≤ t) (h52 : t ≤ 2 ^ 52) :
    ∃ itok otok : ℤ,
      itok = ⌊fl ((t : ℚ) * fl (7 / 10))⌋ ∧
      otok = ⌊fl ((t : ℚ) * fl (3 / 10))⌋ ∧
      calculateCost t =
        fl (fl (fl ((itok : ℚ) / 1000) * fl (5 / 1000)) +
          fl (fl ((otok : ℚ) / 1000) * fl (15 / 1000))) ∧
      |itok - ((7 * t / 10 : ℕ) : ℤ)| ≤ 1 ∧
      |otok - ((3 * t / 10 : ℕ) : ℤ)| ≤ 1 := by
  refine ⟨⌊fl ((t : ℚ) * fl (7 / 10))⌋, ⌊fl ((t : ℚ) * fl (3 / 10))⌋, rfl, rfl, ?_, ?_, ?_⟩
  · unfold calculateCost
    rw [fl_nat h1 h52]
  · have hclose := floor_mul_close t h1 h52 (show (0 : ℚ) < 7 / 10 by norm_num) (le_refl _)
    rwa [floor_seven_tenths t] at hclose
  · have hclose := floor_mul_close t h1 h52 (show (0 : ℚ) < 3 / 10 by norm_num) (by norm_num)
    rwa [floor_three_tenths t] at hclose

set_option maxRecDepth 40000 in
unseal Rat.mul Rat.inv Rat.add Rat.sub Rat.ofScientific in
/-- C7 witness: the amended statement at 100 tokens. -/
theorem c7_witness :
    (1 ≤ 100 ∧ 100 ≤ 2 ^ 52) ∧
    ∃ itok otok : ℤ,
      itok = ⌊fl ((100 : ℕ) * fl (7 / 10) : ℚ)⌋ ∧
      otok = ⌊fl ((100 : ℕ) * fl (3 / 10) : ℚ)⌋ ∧
      calculateCost 100 =
        fl (fl (fl ((itok : ℚ) / 1000) * fl (5 / 1000)) +
          fl (fl ((otok : ℚ) / 1000) * fl (15 / 1000))) ∧
      |itok - ((7 * 100 / 10 : ℕ) : ℤ)| ≤ 1 ∧
      |otok - ((3 * 100 / 10 : ℕ) : ℤ)| ≤ 1 :=
  ⟨⟨by decide, by decide⟩, c7_cost_split_amended 100 (by decide) (by decide)⟩

/-- C8: when the environment section query throws and the other three
sections succeed, fetchArticles does not raise: it returns exactly a
truncated shuffle of the articles collected from the other three sections, so
the failing section contributes zero articles; every returned article comes
from the other three sections, and whenever the collected articles fit within
the requested count they all appear in the result. -/
theorem c8_fetch_resilience (shuffle : List FetchedArticle → List FetchedArticle)
    (primary : SectionOracle) (alt : AltOracle) (count : Nat)
    (l1 l3 l4 : List FetchedArticle) (e : String)
    (hperm : ∀ l, List.Perm (shuffle l) l)
    (hop : ∀ n, primary ⟨"opinion", "commentisfree"⟩ n = Except.ok l1)
    (henv : ∀ n, primary ⟨"environment", "environment"⟩ n = Except.error e)
    (htech : ∀ n, primary ⟨"technology", "technology"⟩ n = Except.ok l3)
    (hsci : ∀ n, primary ⟨"science", "science"⟩ n = Except.ok l4) :
    fetchArticles shuffle primary alt count = (shuffle (c8Combined l1 l3 l4)).take count ∧
    (∀ x ∈ fetchArticles shuffle primary alt count, x ∈ c8Combined l1 l3 l4) ∧
    ((c8Combined l1 l3 l4).length ≤ count →
      ∀ x ∈ c8Combined l1 l3 l4, x ∈ fetchArticles shuffle primary alt count) := by
  have hbs_op : ∀ n, fetchArticlesBySection primary alt ⟨"opinion", "commentisfree"⟩ n =
      Except.ok (standardize "opinion" (filterSubstantial l1)) := by
    intro n
    unfold fetchArticlesBySection
    rw [hop n]
  have hbs_env : ∀ n, fetchArticlesBySection primary alt ⟨"environment", "environment"⟩ n =
      Except.error e := by
    intro n
    unfold fetchArticlesBySection
    rw [henv n]
    simp
  have hbs_tech : ∀ n, fetchArticlesBySection primary alt ⟨"technology", "technology"⟩ n =
      Except.ok (standardize "technology" (filterSubstantial l3)) := by
    intro n
    unfold fetchArticlesBySection
    rw [htech n]
  have hbs_sci : ∀ n, fetchArticlesBySection primary alt ⟨"science", "science"⟩ n =
      Except.ok (standardize "science" (filterSubstantial l4)) := by
    intro n
    unfold fetchArticlesBySection
    rw [hsci n]
  have heq : fetchArticles shuffle primary alt count =
      (shuffle (c8Combined l1 l3 l4)).take count := by
    unfold fetchArticles
    simp only [sections, List.foldl_cons, List.foldl_nil,
      hbs_op, hbs_env, hbs_tech, hbs_sci]
    simp [c8Combined, List.append_assoc]
  refine ⟨heq, ?_, ?_⟩
  · intro x hx
    rw [heq] at hx
    exact (hperm _).subset (List.take_subset _ _ hx)
  · intro hlen x hx
    rw [heq]
    have hlen2 : (shuffle (c8Combined l1 l3 l4)).length ≤ count := by
      rw [(hperm _).length_eq]
      exact hlen
    rw [List.take_of_length_le hlen2]
    exact ((hperm _).mem_iff).mpr hx

/-- C8 witness: the identity shuffle with one substantial opinion article and
a failing environment section. -/
theorem c8_witness :
    fetchArticles id envFailPrimary emptyAlt 4 =
      (id (c8Combined [c8opArticle] [] [])).take 4 ∧
    (∀ x ∈ fetchArticles id envFailPrimary emptyAlt 4, x ∈ c8Combined [c8opArticle] [] []) ∧
    ((c8Combined [c8opArticle] [] []).length ≤ 4 →
      ∀ x ∈ c8Combined [c8opArticle] [] [],
        x ∈ fetchArticles id envFailPrimary emptyAlt 4) :=
  c8_fetch_resilience id envFailPrimary emptyAlt 4 [c8opArticle] [] [] "boom"
    (fun l => List.Perm.refl l) (fun _ => rfl) (fun _ => rfl) (fun _ => rfl) (fun _ => rfl)

/-- C9: slug assignment for the heading "Climate Crisis Deepens" with no
persisted record yields exactly "climate-crisis-deepens". -/
theorem c9_slug_determinism :
    createUniqueSlug "Climate Crisis Deepens" [] none = "climate-crisis-deepens" := by
  decide

/-- C10: for every base slug and finite store the slug-uniqueness loop
terminates and returns an unused candidate (or one owned by excludeId): the
returned slug is free and is one of the candidates base, base-1, ...,
base-(store length). -/
theorem c10_loop_terminates (base : String) (store : SlugStore)
    (excludeId : Option String) :
    slugFree store excludeId (ensureUniqueSlug base store excludeId) = true ∧
    ∃ j, j ≤ store.length ∧
      ensureUniqueSlug base store excludeId = slugCandidate base j := by
  obtain ⟨j, hj, hfree⟩ := exists_free_candidate store excludeId base
  have hex : ∃ j2, j2 < store.length + 1 ∧
      slugFree store excludeId (slugCandidate base (0 + j2)) = true :=
    ⟨j, by omega, by simpa using hfree⟩
  obtain ⟨j2, h1, h2, h3⟩ := ensureGo_spec store excludeId base (store.length + 1) 0 hex
  have hle : j2 ≤ j := by
    by_contra hlt
    push_neg at hlt
    have hfalse := h2 j (by omega)
    rw [Nat.zero_add] at hfalse
    rw [hfalse] at hfree
    cases hfree
  refine ⟨?_, j2, by omega, by simpa using h3⟩
  have h3s : ensureUniqueSlug base store excludeId = slugCandidate base j2 := by
    simpa using h3
  rw [h3s]
  simpa using h1


end ParhoNet

